import Mathlib

/-!
Verification of the Zelty synchronization pipeline (NestJS backend).

This file gives a shallow embedding of the external-data ingestion pipeline:
the remote API client error interceptor (`zelty.service.ts`), the three
resource synchronizers (`sync-restaurants.handler.ts`,
`sync-dishes.handler.ts`, the orders handler), the scheduler job
(`SyncZeltyJob.execute`) and the date-default computation of the orders
synchronizer, together with proofs of the testable properties stated in the
specification.

Modelling conventions:
- JavaScript dynamic values appearing in remote JSON records are modelled by
  the inductive type `JSVal` (undefined, null, booleans, numbers, strings,
  arrays, objects); JS numbers are modelled as integers (no claim in scope
  depends on float arithmetic).
- The relational store (Prisma tables) is an external collaborator with
  insert-or-update-by-unique-key semantics; it is modelled as an association
  list keyed by the remote identifier (`ListStore`), with `upsertStore`
  updating in place when the key exists and appending otherwise.
- Fallible external operations (HTTP fetches, row upserts) are driven by
  explicit failure predicates supplied as environment parameters; the
  control flow around them (try/catch placement, `.catch` on item upserts)
  is translated from the handlers.
- `async`/`await` sequencing is modelled by explicit sequential composition;
  a thrown exception is modelled by an error value that short-circuits the
  rest of the computation, while the store state reached so far is kept
  (database writes are not rolled back).
-/

/-- Model of a dynamic JavaScript value as it appears in the remote JSON
payloads (numbers modelled as integers). -/
inductive JSVal where
  | undefined : JSVal
  | null : JSVal
  | bool : Bool → JSVal
  | num : Int → JSVal
  | str : String → JSVal
  | arr : List JSVal → JSVal
  | obj : List (String × JSVal) → JSVal

/-- JS truthiness: `undefined`, `null`, `false`, `0` and `""` are falsy;
every other value (including empty arrays and objects) is truthy. -/
def jsFalsy : JSVal → Bool
  | .undefined => true
  | .null => true
  | .bool b => !b
  | .num n => n == 0
  | .str s => s == ""
  | .arr _ => false
  | .obj _ => false

/-- Model of the JS nullish-coalescing operator `x ?? d`: the default is
taken exactly when `x` is `undefined` or `null`. -/
def jsNullish (x d : JSVal) : JSVal :=
  match x with
  | .undefined => d
  | .null => d
  | v => v

/-- Model of the JS expression `x || null`: any falsy value collapses to
`null`, a truthy value is kept unchanged. -/
def jsOrNull (x : JSVal) : JSVal :=
  if jsFalsy x then .null else x

/-- Model of JS optional member access `x?.k`: `undefined` when `x` is
nullish or has no such member, the member's value otherwise. -/
def jsOptGet (x : JSVal) (k : String) : JSVal :=
  match x with
  | .obj fields =>
    match fields.lookup k with
    | some v => v
    | none => .undefined
  | _ => .undefined

/-- Model of the JS conditional `x ? f x : null` used for optional date
fields (`order.closed_at ? new Date(order.closed_at) : null`); the `Date`
construction itself is modelled as keeping the raw timestamp value. -/
def jsIfTruthy (x : JSVal) : JSVal :=
  if jsFalsy x then .null else x

/-- Model of JS `parseInt` applied to a string value: the longest prefix of
decimal digits (after an optional sign) is parsed; when there is none the
result is NaN, modelled as `none`. Non-string inputs are out of scope for
the payloads at hand and map to `none`. -/
def parseIntOfString (s : String) : Option Int :=
  let core (ds : List Char) : Option Nat :=
    let digits := ds.takeWhile (·.isDigit)
    if digits.isEmpty then none
    else some (digits.foldl (fun acc c => acc * 10 + (c.toNat - '0'.toNat)) 0)
  match s.data with
  | '-' :: rest => (core rest).map (fun n => -(n : Int))
  | '+' :: rest => (core rest).map (fun n => (n : Int))
  | ds => (core ds).map (fun n => (n : Int))

/-- JS `parseInt(v as string)` on a dynamic value. -/
def jsParseInt (v : JSVal) : Option Int :=
  match v with
  | .str s => parseIntOfString s
  | _ => none

/-! ## The reconciliation store

One relational table per resource type, uniquely keyed by the remote
identifier (`zeltyId`); accessed only through insert-or-update-by-key. -/

/-- A table keyed by the remote numeric identifier: an association list of
(zeltyId, row) pairs. -/
abbrev ListStore (α : Type) : Type := List (Int × α)

namespace ListStore

/-- The list of remote identifiers present in the table. -/
def keys (st : ListStore α) : List Int := st.map Prod.fst

/-- The number of rows in the table. -/
def rowCount (st : ListStore α) : Nat := st.length

/-- Prisma `upsert({ where: { zeltyId: k }, create, update })`: update the
existing row in place when the key is present, append a new row otherwise. -/
def upsertStore (st : ListStore α) (k : Int) (v : α) : ListStore α :=
  if k ∈ keys st then
    st.map (fun e => if e.1 = k then (k, v) else e)
  else
    st ++ [(k, v)]

theorem keys_upsert_of_mem {st : ListStore α} {k : Int} (v : α)
    (h : k ∈ keys st) : keys (upsertStore st k v) = keys st := by
  simp only [upsertStore]
  rw [if_pos h]
  simp only [keys, List.map_map]
  refine List.map_congr_left ?_
  intro e _
  by_cases he : e.1 = k
  · simp [he, Function.comp]
  · simp [he, Function.comp]

theorem keys_upsert_of_not_mem {st : ListStore α} {k : Int} (v : α)
    (h : k ∉ keys st) : keys (upsertStore st k v) = keys st ++ [k] := by
  simp only [upsertStore]
  rw [if_neg h]
  simp [keys]

theorem mem_keys_upsert_self {st : ListStore α} (k : Int) (v : α) :
    k ∈ keys (upsertStore st k v) := by
  by_cases h : k ∈ keys st
  · rw [keys_upsert_of_mem v h]; exact h
  · rw [keys_upsert_of_not_mem v h]; simp

theorem keys_subset_upsert (st : ListStore α) (k : Int) (v : α) :
    keys st ⊆ keys (upsertStore st k v) := by
  by_cases h : k ∈ keys st
  · rw [keys_upsert_of_mem v h]
    exact List.Subset.refl _
  · rw [keys_upsert_of_not_mem v h]
    exact List.subset_append_left _ _

theorem nodup_keys_upsert {st : ListStore α} (k : Int) (v : α)
    (h : (keys st).Nodup) : (keys (upsertStore st k v)).Nodup := by
  by_cases hk : k ∈ keys st
  · rw [keys_upsert_of_mem v hk]; exact h
  · rw [keys_upsert_of_not_mem v hk]
    simpa [List.nodup_append] using ⟨h, hk⟩

theorem rowCount_eq_keys_length (st : ListStore α) :
    rowCount st = (keys st).length := by
  simp [rowCount, keys]

end ListStore

/-! ## Remote records and field mappings

Structures for the remote JSON records, with one field per property the
handlers access; the `id` key (used as `zeltyId`) is a JS number, modelled
as `Int`. All other payload fields are dynamic values. -/

/-- `new Date(v as string)` on a timestamp value: the Date is modelled as
carrying the raw timestamp value (no claim in scope depends on calendar
arithmetic on these fields). -/
def jsNewDate (v : JSVal) : JSVal := v

/-- A remote restaurant record as accessed by
`SyncRestaurantsHandler.execute`. -/
structure ZRestaurant where
  id : Int
  remote_id : JSVal
  disable : JSVal
  name : JSVal
  description : JSVal
  country_code : JSVal
  currency : JSVal
  image : JSVal
  default_lang : JSVal
  production_delay : JSVal
  delivery_time : JSVal
  ordering_available : JSVal
  delivery_charge : JSVal
  delivery_charge_tva : JSVal
  delivery_minimum : JSVal
  delivery_no_charge_min : JSVal
  delivery_hours : JSVal
  opening_hours : JSVal
  opening_hours_txt : JSVal
  happy_hours : JSVal
  closures : JSVal
  address : JSVal
  phone : JSVal
  public_name : JSVal
  online_ordering_hidden : JSVal
  loc : JSVal
  takeaway_delay : JSVal
  ordering_delay : JSVal
  delay : JSVal
  meta : JSVal

/-- The local `ZeltyRestaurant` row produced by the restaurant field
mapping. -/
structure RestaurantRow where
  remoteId : JSVal
  disable : JSVal
  name : JSVal
  description : JSVal
  countryCode : JSVal
  currency : JSVal
  image : JSVal
  defaultLang : JSVal
  productionDelay : JSVal
  deliveryTime : JSVal
  orderingAvailable : JSVal
  deliveryCharge : JSVal
  deliveryChargeTva : JSVal
  deliveryMinimum : JSVal
  deliveryNoChargeMin : JSVal
  deliveryHours : JSVal
  openingHours : JSVal
  openingHoursTxt : JSVal
  happyHours : JSVal
  closures : JSVal
  address : JSVal
  phone : JSVal
  publicName : JSVal
  onlineOrderingHidden : JSVal
  latitude : JSVal
  longitude : JSVal
  takeawayDelay : JSVal
  orderingDelay : JSVal
  delay : JSVal
  meta : JSVal

/-- The `restaurantData` object literal of `SyncRestaurantsHandler.execute`
(lines 25-56): field renamings, `image || null`, `closures ?? []`, and the
optional-chain accesses `loc?.lat` / `loc?.lng`. -/
def restaurantRow (r : ZRestaurant) : RestaurantRow where
  remoteId := r.remote_id
  disable := r.disable
  name := r.name
  description := r.description
  countryCode := r.country_code
  currency := r.currency
  image := jsOrNull r.image
  defaultLang := r.default_lang
  productionDelay := r.production_delay
  deliveryTime := r.delivery_time
  orderingAvailable := r.ordering_available
  deliveryCharge := r.delivery_charge
  deliveryChargeTva := r.delivery_charge_tva
  deliveryMinimum := r.delivery_minimum
  deliveryNoChargeMin := r.delivery_no_charge_min
  deliveryHours := r.delivery_hours
  openingHours := r.opening_hours
  openingHoursTxt := r.opening_hours_txt
  happyHours := r.happy_hours
  closures := jsNullish r.closures (.arr [])
  address := r.address
  phone := r.phone
  publicName := r.public_name
  onlineOrderingHidden := r.online_ordering_hidden
  latitude := jsOptGet r.loc "lat"
  longitude := jsOptGet r.loc "lng"
  takeawayDelay := r.takeaway_delay
  orderingDelay := r.ordering_delay
  delay := r.delay
  meta := r.meta

/-- A remote dish record as accessed by `SyncDishesHandler.execute`. -/
structure ZDish where
  id : Int
  id_restaurant : JSVal
  remote_id : JSVal
  sku : JSVal
  name : JSVal
  description : JSVal
  image : JSVal
  thumb : JSVal
  price : JSVal
  price_togo : JSVal
  price_delivery : JSVal
  happy_price : JSVal
  cost_price : JSVal
  tax : JSVal
  tax_takeaway : JSVal
  tax_delivery : JSVal
  tags : JSVal
  options : JSVal
  id_fabrication_place : JSVal
  color : JSVal
  loyalty_points : JSVal
  earn_loyalty : JSVal
  price_to_define : JSVal
  disable : JSVal
  disable_takeaway : JSVal
  disable_delivery : JSVal
  meta : JSVal

/-- The local `ZeltyDish` row produced by the dish field mapping. -/
structure DishRow where
  zeltyRestaurantId : JSVal
  remoteId : JSVal
  sku : JSVal
  name : JSVal
  description : JSVal
  image : JSVal
  thumb : JSVal
  price : JSVal
  priceTogo : JSVal
  priceDelivery : JSVal
  happyPrice : JSVal
  costPrice : JSVal
  tax : JSVal
  taxTakeaway : JSVal
  taxDelivery : JSVal
  tags : JSVal
  options : JSVal
  fabricationPlaceId : JSVal
  color : JSVal
  loyaltyPoints : JSVal
  earnLoyalty : JSVal
  priceToDefine : JSVal
  disable : JSVal
  disableTakeaway : JSVal
  disableDelivery : JSVal
  meta : JSVal

/-- The `dishData` object literal of `SyncDishesHandler.execute`
(lines 42-69): renamings, `?? ` defaults, and `image || null` /
`thumb || null`. -/
def dishRow (d : ZDish) : DishRow where
  zeltyRestaurantId := d.id_restaurant
  remoteId := jsNullish d.remote_id .null
  sku := jsNullish d.sku .null
  name := d.name
  description := jsNullish d.description .null
  image := jsOrNull d.image
  thumb := jsOrNull d.thumb
  price := jsNullish d.price (.num 0)
  priceTogo := jsNullish d.price_togo .null
  priceDelivery := jsNullish d.price_delivery .null
  happyPrice := jsNullish d.happy_price .null
  costPrice := jsNullish d.cost_price .null
  tax := jsNullish d.tax (.num 0)
  taxTakeaway := jsNullish d.tax_takeaway .null
  taxDelivery := jsNullish d.tax_delivery .null
  tags := jsNullish d.tags (.arr [])
  options := jsNullish d.options (.arr [])
  fabricationPlaceId := jsNullish d.id_fabrication_place .null
  color := jsNullish d.color .null
  loyaltyPoints := jsNullish d.loyalty_points (.num 0)
  earnLoyalty := jsNullish d.earn_loyalty (.num 0)
  priceToDefine := jsNullish d.price_to_define (.bool false)
  disable := jsNullish d.disable (.bool false)
  disableTakeaway := jsNullish d.disable_takeaway (.bool false)
  disableDelivery := jsNullish d.disable_delivery (.bool false)
  meta := jsNullish d.meta .null

/-- A remote order line-item record as accessed by the orders handler. The
`id` key (used as `zeltyId`) is a JS number. -/
structure ZItem where
  id : Int
  item_id : JSVal
  name : JSVal
  type : JSVal
  course : JSVal
  comment : JSVal
  price : JSVal
  modifiers : JSVal

/-- A remote order record as accessed by `SyncOrdersHandler.execute`. The
`items` field models the `order.items && Array.isArray(order.items)` guard:
`none` when the property is absent or not an array, `some` the element list
otherwise. -/
structure ZOrder where
  id : Int
  uuid : JSVal
  comment : JSVal
  device_id : JSVal
  closed_by_device_id : JSVal
  remote_id : JSVal
  ref : JSVal
  loyalty : JSVal
  seats : JSVal
  table : JSVal
  id_restaurant : JSVal
  created_at : JSVal
  closed_at : JSVal
  due_date : JSVal
  mode : JSVal
  fulfillment_type : JSVal
  source : JSVal
  origin_name : JSVal
  status : JSVal
  price : JSVal
  virtual_brand_name : JSVal
  first_name : JSVal
  phone : JSVal
  buzzer_ref : JSVal
  display_id : JSVal
  items : Option (List ZItem)

/-- The local `ZeltyOrder` row produced by the order field mapping. -/
structure OrderRow where
  zeltyUuid : JSVal
  comment : JSVal
  deviceId : JSVal
  closedByDeviceId : JSVal
  remoteId : JSVal
  ref : JSVal
  loyalty : JSVal
  seats : JSVal
  tableNumber : JSVal
  zeltyRestaurantId : JSVal
  zeltyCreatedAt : JSVal
  closedAt : JSVal
  dueDate : JSVal
  mode : JSVal
  fulfillmentType : JSVal
  source : JSVal
  originName : JSVal
  status : JSVal
  amountIncTax : JSVal
  amountExcTax : JSVal
  virtualBrandName : JSVal
  firstName : JSVal
  phone : JSVal
  buzzerRef : JSVal
  displayId : JSVal

/-- The `orderData` object literal of `SyncOrdersHandler.execute`
(lines 132-160): renamings, `??` defaults, truthiness-guarded optional
dates, and the optional chain `price?.final_amount_inc_tax ?? 0`. -/
def orderRow (o : ZOrder) : OrderRow where
  zeltyUuid := o.uuid
  comment := jsNullish o.comment .null
  deviceId := jsNullish o.device_id .null
  closedByDeviceId := jsNullish o.closed_by_device_id .null
  remoteId := jsNullish o.remote_id .null
  ref := jsNullish o.ref .null
  loyalty := jsNullish o.loyalty (.num 0)
  seats := jsNullish o.seats (.num 1)
  tableNumber := jsNullish o.table .null
  zeltyRestaurantId := o.id_restaurant
  zeltyCreatedAt := jsNewDate o.created_at
  closedAt := if jsFalsy o.closed_at then .null else jsNewDate o.closed_at
  dueDate := if jsFalsy o.due_date then .null else jsNewDate o.due_date
  mode := jsNullish o.mode .null
  fulfillmentType := jsNullish o.fulfillment_type .null
  source := jsNullish o.source .null
  originName := jsNullish o.origin_name .null
  status := o.status
  amountIncTax := jsNullish (jsOptGet o.price "final_amount_inc_tax") (.num 0)
  amountExcTax := jsNullish (jsOptGet o.price "final_amount_exc_tax") (.num 0)
  virtualBrandName := jsNullish o.virtual_brand_name .null
  firstName := jsNullish o.first_name .null
  phone := jsNullish o.phone .null
  buzzerRef := jsNullish o.buzzer_ref .null
  displayId := jsNullish o.display_id .null

/-- The local `ZeltyOrderItem` row produced by the item field mapping. -/
structure ItemRow where
  zeltyOrderId : Int
  zeltyDishId : Option Int
  name : JSVal
  type : JSVal
  course : JSVal
  comment : JSVal
  baseOriginalAmountIncTax : JSVal
  originalAmountIncTax : JSVal
  discountedAmountIncTax : JSVal
  finalAmountIncTax : JSVal
  taxAmount : JSVal
  taxRate : JSVal
  modifiers : JSVal

/-- The `itemData` object literal of `SyncOrdersHandler.execute`
(lines 173-189): the parent order's id, `parseInt(item.item_id)`, `??`
defaults, and the nested optional chains `price?.tax?.tax_amount ?? 0` /
`price?.tax?.tax_rate ?? null`. -/
def itemRow (orderId : Int) (it : ZItem) : ItemRow where
  zeltyOrderId := orderId
  zeltyDishId := jsParseInt it.item_id
  name := it.name
  type := jsNullish it.type (.str "dish")
  course := jsNullish it.course (.num 0)
  comment := jsNullish it.comment .null
  baseOriginalAmountIncTax :=
    jsNullish (jsOptGet it.price "base_original_amount_inc_tax") (.num 0)
  originalAmountIncTax :=
    jsNullish (jsOptGet it.price "original_amount_inc_tax") (.num 0)
  discountedAmountIncTax :=
    jsNullish (jsOptGet it.price "discounted_amount_inc_tax") (.num 0)
  finalAmountIncTax :=
    jsNullish (jsOptGet it.price "final_amount_inc_tax") (.num 0)
  taxAmount := jsNullish (jsOptGet (jsOptGet it.price "tax") "tax_amount") (.num 0)
  taxRate := jsNullish (jsOptGet (jsOptGet it.price "tax") "tax_rate") .null
  modifiers := jsNullish it.modifiers (.arr [])

/-! ## Synchronizer execution models

The handlers' control flow, with the external collaborators (HTTP fetch,
row upsert) driven by explicit failure predicates. A thrown exception is an
error value; the store reached so far is returned alongside it (committed
writes are not rolled back). -/

open ListStore

/-- An exception escaping a handler: a failed page/list fetch (network
error or non-2xx status, re-raised by the client interceptor) or a failed
row upsert. -/
inductive SyncErr where
  | fetchFail : SyncErr
  | upsertFail : SyncErr
deriving DecidableEq

/-- The fixed page size of the dish and order synchronizers
(`const PAGE_LIMIT = 100`). -/
def PAGE_LIMIT : Nat := 100

/-- Result of one synchronizer run: final store, the list of page offsets
requested, the reported `totalSynced` count, and the exception that escaped
the run, if any. -/
structure RunResult (σ : Type) where
  store : σ
  requests : List Nat
  total : Nat
  err : Option SyncErr

/-- The paginated `while (true)` loop shared by `SyncDishesHandler.execute`
and `SyncOrdersHandler.execute`: fetch the page at the current offset; stop
when the envelope's list is missing (`!data`) or empty; otherwise process
the page's records, add the page size to `totalSynced`, stop when the page
was short (`data.length < PAGE_LIMIT`), else advance the offset by
`PAGE_LIMIT` and continue (the 5-second inter-page pause has no observable
effect in this model). `fetch` returns `.error` for a thrown request,
`.ok none` for a missing list, `.ok (some data)` otherwise; `process`
returns the updated store and the exception that escaped the page's
record loop, if any. The loop is given explicit fuel; `none` means the
fuel was exhausted before the loop stopped. -/
def pagedLoop (fetch : Nat → Except SyncErr (Option (List α)))
    (process : σ → List α → σ × Option SyncErr) :
    Nat → Nat → Nat → σ → List Nat → Option (RunResult σ)
  | 0, _, _, _, _ => none
  | fuel + 1, offset, total, st, reqs =>
    match fetch offset with
    | .error e => some ⟨st, reqs ++ [offset], total, some e⟩
    | .ok none => some ⟨st, reqs ++ [offset], total, none⟩
    | .ok (some data) =>
      if data.length = 0 then some ⟨st, reqs ++ [offset], total, none⟩
      else
        match process st data with
        | (st', some e) => some ⟨st', reqs ++ [offset], total, some e⟩
        | (st', none) =>
          if data.length < PAGE_LIMIT then
            some ⟨st', reqs ++ [offset], total + data.length, none⟩
          else
            pagedLoop fetch process fuel (offset + PAGE_LIMIT)
              (total + data.length) st' (reqs ++ [offset])

/-- A fetch environment built from the remote pages and a failure
predicate: `api offset` is the envelope's list at that offset (`none` for a
missing list), and `ffails offset` injects a thrown request. -/
def fetchEnv (ffails : Nat → Bool) (api : Nat → Option (List α))
    (offset : Nat) : Except SyncErr (Option (List α)) :=
  if ffails offset then .error .fetchFail else .ok (api offset)

/-! ### Restaurant synchronizer -/

/-- The record loop of `SyncRestaurantsHandler.execute` (lines 24-68): each
restaurant is mapped and upserted keyed by `restaurant.id`; a failing
upsert throws, ending the loop with the store reached so far. -/
def restaurantRecordLoop (ufails : ZRestaurant → Bool) :
    ListStore RestaurantRow → List ZRestaurant →
    ListStore RestaurantRow × Option SyncErr
  | st, [] => (st, none)
  | st, r :: rs =>
    if ufails r then (st, some .upsertFail)
    else restaurantRecordLoop ufails (upsertStore st r.id (restaurantRow r)) rs

/-- `SyncRestaurantsHandler.execute`: one GET of the full restaurant list
(modelled as `fetch`: `.error` for a thrown request, `.ok` the parsed
list), then the record loop; any exception is logged and re-thrown, so it
appears in the result, with the store reached so far. -/
def syncRestaurantsRun (fetch : Except SyncErr (List ZRestaurant))
    (ufails : ZRestaurant → Bool) (st : ListStore RestaurantRow) :
    ListStore RestaurantRow × Option SyncErr :=
  match fetch with
  | .error e => (st, some e)
  | .ok data => restaurantRecordLoop ufails st data

/-! ### Dish synchronizer -/

/-- The per-page record loop of `SyncDishesHandler.execute` (lines 41-79):
each dish is mapped and upserted keyed by `dish.id`; a failing upsert
throws, ending the page with the store reached so far. -/
def dishPageLoop (ufails : ZDish → Bool) :
    ListStore DishRow → List ZDish → ListStore DishRow × Option SyncErr
  | st, [] => (st, none)
  | st, d :: ds =>
    if ufails d then (st, some .upsertFail)
    else dishPageLoop ufails (upsertStore st d.id (dishRow d)) ds

/-- `SyncDishesHandler.execute`: the paginated loop over
`GET catalog/dishes` starting at offset 0 with `totalSynced = 0`. -/
def syncDishesRun (ffails : Nat → Bool) (api : Nat → Option (List ZDish))
    (ufails : ZDish → Bool) (fuel : Nat) (st : ListStore DishRow) :
    Option (RunResult (ListStore DishRow)) :=
  pagedLoop (fetchEnv ffails api) (dishPageLoop ufails) fuel 0 0 st []

/-! ### Order synchronizer -/

/-- The two tables written by the order synchronizer. -/
structure OrdersStore where
  orders : ListStore OrderRow
  items : ListStore ItemRow

/-- The combined key set of the two order tables (order keys tagged left,
item keys tagged right). -/
def ordersKeys (st : OrdersStore) : List (Int ⊕ Int) :=
  (keys st.orders).map Sum.inl ++ (keys st.items).map Sum.inr

/-- Total row count over the two order tables. -/
def ordersRowCount (st : OrdersStore) : Nat :=
  rowCount st.orders + rowCount st.items

/-- The item loop nested in an order (lines 171-209): each item is mapped
and upserted keyed by `item.id`; the upsert's rejection is caught by the
`.catch` handler, logged, and swallowed, so a failing item leaves the store
unchanged and the loop continues with the next item. -/
def itemLoop (ifails : ZItem → Bool) (orderId : Int) :
    ListStore ItemRow → List ZItem → ListStore ItemRow
  | st, [] => st
  | st, it :: its =>
    let st' := if ifails it then st else upsertStore st it.id (itemRow orderId it)
    itemLoop ifails orderId st' its

/-- The per-page order loop of `SyncOrdersHandler.execute` (lines 131-210):
each order is mapped and upserted keyed by `order.id` (a failing order
upsert throws, ending the page), then, when `order.items` is an array, its
items are synced by the nested item loop. -/
def orderPageLoop (ofails : ZOrder → Bool) (ifails : ZItem → Bool) :
    OrdersStore → List ZOrder → OrdersStore × Option SyncErr
  | st, [] => (st, none)
  | st, o :: os =>
    if ofails o then (st, some .upsertFail)
    else
      let st1 : OrdersStore :=
        { st with orders := upsertStore st.orders o.id (orderRow o) }
      let st2 : OrdersStore :=
        match o.items with
        | some its => { st1 with items := itemLoop ifails o.id st1.items its }
        | none => st1
      orderPageLoop ofails ifails st2 os

/-! ### Date defaults of the order synchronizer

`dateUtils` (`core/utils/date`) re-exports the date-fns calendar functions
`startOfMonth`, `endOfMonth` and `sub`; they are modelled here at day
granularity over proleptic-Gregorian calendar dates. -/

/-- A calendar date: year, month (1-12), day (1-31). -/
structure CalDate where
  year : Int
  month : Nat
  day : Nat
deriving DecidableEq

namespace dateUtils

/-- Gregorian leap-year rule. -/
def isLeapYear (y : Int) : Bool :=
  (y % 4 == 0 && y % 100 != 0) || y % 400 == 0

/-- Number of days of the given month. -/
def daysInMonth (y : Int) (m : Nat) : Nat :=
  if m = 2 then (if isLeapYear y then 29 else 28)
  else if m = 4 ∨ m = 6 ∨ m = 9 ∨ m = 11 then 30
  else 31

/-- date-fns `startOfMonth`: the first day of the date's month. -/
def startOfMonth (d : CalDate) : CalDate := ⟨d.year, d.month, 1⟩

/-- date-fns `endOfMonth`: the last day of the date's month. -/
def endOfMonth (d : CalDate) : CalDate :=
  ⟨d.year, d.month, daysInMonth d.year d.month⟩

/-- The calendar day before `d`. -/
def prevDay (d : CalDate) : CalDate :=
  if 1 < d.day then ⟨d.year, d.month, d.day - 1⟩
  else if 1 < d.month then ⟨d.year, d.month - 1, daysInMonth d.year (d.month - 1)⟩
  else ⟨d.year - 1, 12, 31⟩

/-- date-fns `sub(date, { days: n })`. -/
def sub (d : CalDate) (days : Nat) : CalDate :=
  match days with
  | 0 => d
  | n + 1 => sub (prevDay d) n

/-- Two-digit zero padding for month/day numbers. -/
def pad2 (n : Nat) : String :=
  if n < 10 then "0" ++ toString n else toString n

/-- date-fns `format(date, 'yyyy-MM-dd')` (for the four-digit years in
scope). -/
def formatYyyyMmDd (d : CalDate) : String :=
  toString d.year ++ "-" ++ pad2 d.month ++ "-" ++ pad2 d.day

end dateUtils

/-- The date defaulting of `SyncOrdersHandler.execute` (lines 103-112):
`fromDate = fromDate ?? dateUtils.sub(dateUtils.startOfMonth(new Date()), { days: 1 })`
and `toDate = toDate ?? dateUtils.endOfMonth(new Date())`, with `new Date()`
the current clock. -/
def syncOrdersDates (fromDate toDate : Option CalDate) (now : CalDate) :
    CalDate × CalDate :=
  (fromDate.getD (dateUtils.sub (dateUtils.startOfMonth now) 1),
   toDate.getD (dateUtils.endOfMonth now))

/-- `SyncOrdersHandler.execute`: compute the date-range defaults, then run
the paginated loop over `GET orders` starting at offset 0 with
`totalSynced = 0`; the remote pages may depend on the formatted
`from`/`to` request parameters. -/
def syncOrdersRun (ffails : Nat → Bool)
    (api : String → String → Nat → Option (List ZOrder))
    (ofails : ZOrder → Bool) (ifails : ZItem → Bool)
    (fromDate toDate : Option CalDate) (now : CalDate) (fuel : Nat)
    (st : OrdersStore) : Option (RunResult OrdersStore) :=
  let dates := syncOrdersDates fromDate toDate now
  pagedLoop
    (fetchEnv ffails
      (api (dateUtils.formatYyyyMmDd dates.1) (dateUtils.formatYyyyMmDd dates.2)))
    (orderPageLoop ofails ifails) fuel 0 0 st []

/-! ### Scheduler job -/

/-- The three synchronizers invoked by the scheduler job. -/
inductive SyncStep where
  | restaurants : SyncStep
  | dishes : SyncStep
  | orders : SyncStep
deriving DecidableEq

/-- One awaited handler invocation inside the tick: the step's name is
appended to the invocation trace and the handler's outcome is returned. -/
def invokeStep (name : SyncStep) (res : Except SyncErr Unit)
    (trace : List SyncStep) : List SyncStep × Except SyncErr Unit :=
  (trace ++ [name], res)

/-- `SyncZeltyJob.execute` (scheduler tick body, fired every 5 minutes):
`await syncRestaurantsHandler.execute(); await syncDishesHandler.execute();
await syncOrdersHandler.execute();` — strictly sequential awaits with no
try/catch, so a thrown exception ends the tick before the next invocation
and propagates out of the handler. Returns the invocation trace and the
tick's outcome, given each handler's outcome. -/
def syncZeltyTick (restaurantsRes dishesRes ordersRes : Except SyncErr Unit) :
    List SyncStep × Except SyncErr Unit :=
  let step1 := invokeStep .restaurants restaurantsRes []
  match step1.2 with
  | .error e => (step1.1, .error e)
  | .ok _ =>
    let step2 := invokeStep .dishes dishesRes step1.1
    match step2.2 with
    | .error e => (step2.1, .error e)
    | .ok _ => invokeStep .orders ordersRes step2.1

/-! ### Remote API client (`ZeltyService`) -/

/-- A header map (JS object of header name/value pairs). -/
abbrev Headers := List (String × String)

/-- The request config attached to an axios error. -/
structure AxiosConfig where
  url : Option String
  method : Option String
  baseURL : Option String
  headers : Option Headers

/-- The response attached to an axios error (absent on network errors). -/
structure AxiosResponse where
  status : Nat
  statusText : String
  data : JSVal
  headers : Headers

/-- An `AxiosError` as destructured by `ZeltyService.logAxiosError`. -/
structure AxiosError where
  message : String
  code : Option String
  config : Option AxiosConfig
  response : Option AxiosResponse

/-- JS `String.prototype.toLowerCase` restricted to ASCII (the header
names and methods in scope are ASCII). -/
def lowerChar (c : Char) : Char :=
  if 'A' <= c && c <= 'Z' then Char.ofNat (c.toNat + 32) else c

/-- ASCII string lowercasing (`key.toLowerCase()`). -/
def lowerStr (s : String) : String := ⟨s.data.map lowerChar⟩

/-- JS `String.prototype.toUpperCase` restricted to ASCII. -/
def upperChar (c : Char) : Char :=
  if 'a' <= c && c <= 'z' then Char.ofNat (c.toNat - 32) else c

/-- ASCII string uppercasing (`method?.toUpperCase()`). -/
def upperStr (s : String) : String := ⟨s.data.map upperChar⟩

/-- The header names redacted by `ZeltyService.sanitizeHeaders`
(`sensitiveKeys`, compared against lowercased header names). -/
def sensitiveKeys : List String := ["authorization", "cookie", "x-api-key"]

/-- `ZeltyService.sanitizeHeaders` (lines 62-79): `undefined` stays
`undefined`; otherwise a copy of the header map in which every key whose
lowercase form is sensitive is bound to `'[REDACTED]'` and every other key
keeps its value. -/
def sanitizeHeaders : Option Headers → Option Headers
  | none => none
  | some headers =>
    some (headers.map (fun e =>
      if lowerStr e.1 ∈ sensitiveKeys then (e.1, "[REDACTED]") else e))

/-- The `errorDetails` object assembled by `ZeltyService.logAxiosError`. -/
structure ErrorDetails where
  message : String
  code : Option String
  url : Option String
  method : Option String
  baseURL : Option String
  status : Option Nat
  statusText : Option String
  responseData : Option JSVal
  requestHeaders : Option Headers
  responseHeaders : Option Headers

/-- `ZeltyService.logAxiosError` (lines 40-60): the structured log record
built from the error (optional chains modelled by `Option.bind`/`map`;
`method?.toUpperCase()` by `upperStr`). -/
def logAxiosError (error : AxiosError) : ErrorDetails where
  message := error.message
  code := error.code
  url := error.config.bind (·.url)
  method := (error.config.bind (·.method)).map upperStr
  baseURL := error.config.bind (·.baseURL)
  status := error.response.map (·.status)
  statusText := error.response.map (·.statusText)
  responseData := error.response.map (·.data)
  requestHeaders := sanitizeHeaders (error.config.bind (·.headers))
  responseHeaders := error.response.map (·.headers)

/-- The response interceptor installed by `ZeltyService.createClient`
(lines 28-35): a fulfilled response passes through unchanged and logs
nothing; a rejected request is logged via `logAxiosError` and re-rejected
with the very same error (`Promise.reject(error)`), with no retry. Returns
the emitted log record (if any) and the settled outcome. -/
def responseInterceptor (outcome : Except AxiosError AxiosResponse) :
    Option ErrorDetails × Except AxiosError AxiosResponse :=
  match outcome with
  | .ok response => (none, .ok response)
  | .error error => (some (logAxiosError error), .error error)

/-! ## Helper lemmas -/

/-- Length of the remote page at an offset (0 when the list is missing). -/
def pageLen (api : Nat → Option (List α)) (offset : Nat) : Nat :=
  ((api offset).getD []).length

theorem dishPageLoop_no_fail_ok (st : ListStore DishRow) (ds : List ZDish) :
    (dishPageLoop (fun _ => false) st ds).2 = none := by
  induction ds generalizing st with
  | nil => rfl
  | cons d ds ih => simpa [dishPageLoop] using ih _

theorem orderPageLoop_no_fail_ok (ifails : ZItem → Bool) (st : OrdersStore)
    (os : List ZOrder) :
    (orderPageLoop (fun _ => false) ifails st os).2 = none := by
  induction os generalizing st with
  | nil => rfl
  | cons o os ih => simpa [orderPageLoop] using ih _

/-- Pagination of the shared `while (true)` loop: when the remote API
serves exactly `PAGE_LIMIT` records at each of the first `k` offsets and a
short (or missing/empty) page at the next offset, and page processing never
throws, the loop issues exactly `k + 1` requests at offsets
`base, base + PAGE_LIMIT, ...`, stops there, and reports as total the sum
of the page sizes. -/
theorem pagedLoop_pages {σ α : Type} (process : σ → List α → σ × Option SyncErr)
    (hok : ∀ s d, (process s d).2 = none) (api : Nat → Option (List α)) :
    ∀ (k fuel base total : Nat) (st : σ) (reqs : List Nat),
    (∀ i < k, pageLen api (base + i * PAGE_LIMIT) = PAGE_LIMIT) →
    pageLen api (base + k * PAGE_LIMIT) < PAGE_LIMIT →
    k < fuel →
    ∃ st', pagedLoop (fetchEnv (fun _ => false) api) process fuel base total st reqs =
      some ⟨st',
        reqs ++ (List.range (k + 1)).map (fun i => base + i * PAGE_LIMIT),
        total + ((List.range (k + 1)).map
          (fun i => pageLen api (base + i * PAGE_LIMIT))).sum,
        none⟩ := by
  intro k
  induction k with
  | zero =>
    intro fuel base total st reqs _ hshort hfuel
    obtain ⟨f, rfl⟩ : ∃ f, fuel = f + 1 := ⟨fuel - 1, by omega⟩
    simp only [Nat.zero_add, Nat.mul_one, Nat.zero_mul, Nat.add_zero] at hshort
    cases hapi : api base with
    | none =>
      refine ⟨st, ?_⟩
      simp [pagedLoop, fetchEnv, hapi, pageLen, List.range_succ]
    | some data =>
      have hlen : data.length < PAGE_LIMIT := by
        simpa [pageLen, hapi] using hshort
      by_cases hz : data.length = 0
      · refine ⟨st, ?_⟩
        simp [pagedLoop, fetchEnv, hapi, hz, pageLen, List.range_succ]
      · rcases hp : process st data with ⟨st', e⟩
        have he : e = none := by have := hok st data; rwa [hp] at this
        subst he
        refine ⟨st', ?_⟩
        simp [pagedLoop, fetchEnv, hapi, hz, hp, hlen, pageLen, List.range_succ]
  | succ k ih =>
    intro fuel base total st reqs hfull hshort hfuel
    obtain ⟨f, rfl⟩ : ∃ f, fuel = f + 1 := ⟨fuel - 1, by omega⟩
    have h0 : pageLen api base = PAGE_LIMIT := by
      simpa using hfull 0 (Nat.succ_pos k)
    cases hapi : api base with
    | none => simp [pageLen, hapi, PAGE_LIMIT] at h0
    | some data =>
      have hlen : data.length = PAGE_LIMIT := by
        simpa [pageLen, hapi] using h0
      have hz : ¬ data.length = 0 := by
        rw [hlen]; simp [PAGE_LIMIT]
      rcases hp : process st data with ⟨st', e⟩
      have he : e = none := by have := hok st data; rwa [hp] at this
      subst he
      have hnotshort : ¬ data.length < PAGE_LIMIT := by omega
      have hrec := ih f (base + PAGE_LIMIT) (total + data.length) st'
        (reqs ++ [base])
        (fun i hi => by
          have := hfull (i + 1) (by omega)
          simpa [Nat.add_mul, Nat.add_assoc, Nat.add_comm, Nat.add_left_comm]
            using this)
        (by
          have := hshort
          simpa [Nat.add_mul, Nat.add_assoc, Nat.add_comm, Nat.add_left_comm]
            using this)
        (by omega)
      obtain ⟨stF, hstF⟩ := hrec
      refine ⟨stF, ?_⟩
      have hstep :
          pagedLoop (fetchEnv (fun _ => false) api) process (f + 1) base total st reqs =
          pagedLoop (fetchEnv (fun _ => false) api) process f (base + PAGE_LIMIT)
            (total + data.length) st' (reqs ++ [base]) := by
        simp [pagedLoop, fetchEnv, hapi, hz, hp, hnotshort]
      rw [hstep, hstF]
      have hreq :
          (reqs ++ [base]) ++
            (List.range (k + 1)).map (fun i => base + PAGE_LIMIT + i * PAGE_LIMIT) =
          reqs ++ (List.range (k + 2)).map (fun i => base + i * PAGE_LIMIT) := by
        rw [List.range_succ_eq_map (k + 1), List.map_cons, List.map_map]
        simp only [Nat.zero_mul, Nat.add_zero, List.append_assoc,
          List.singleton_append]
        congr 2
        refine List.map_congr_left ?_
        intro i _
        simp [Function.comp, Nat.succ_mul, Nat.add_mul]
        ring
      have htot :
          total + data.length + ((List.range (k + 1)).map
            (fun i => pageLen api (base + PAGE_LIMIT + i * PAGE_LIMIT))).sum =
          total + ((List.range (k + 2)).map
            (fun i => pageLen api (base + i * PAGE_LIMIT))).sum := by
        rw [List.range_succ_eq_map (k + 1), List.map_cons, List.map_map]
        simp only [Nat.zero_mul, Nat.add_zero, List.sum_cons]
        have hcongr : (List.range (k + 1)).map
            (fun i => pageLen api (base + PAGE_LIMIT + i * PAGE_LIMIT)) =
            (List.range (k + 1)).map
              ((fun i => pageLen api (base + i * PAGE_LIMIT)) ∘ Nat.succ) := by
          refine List.map_congr_left ?_
          intro i _
          simp [Function.comp, Nat.succ_mul]
          ring_nf
        rw [hcongr]
        have : pageLen api base = data.length := by simp [pageLen, hapi]
        rw [this]
        omega
      rw [hreq, htot]

/-! ## Claim C1: pagination termination and request/total accounting -/

/-- C1: For the Dishes and Orders synchronizers, if the remote API returns
exactly `PAGE_LIMIT` (= 100) records for each of the first `k` page
requests and fewer than `PAGE_LIMIT` records on page `k + 1`, then the
synchronizer issues exactly `k + 1` page requests, at offsets
`0, 100, ..., k * 100`, stops on the empty or short page, and the reported
total-synced count equals the sum of the record counts of all pages.
(The loop is modelled with fuel; `k < fuel` makes the fuel a non-binding
bound.) -/
theorem claim_C1_pagination :
    (∀ (api : Nat → Option (List ZDish)) (k fuel : Nat) (st : ListStore DishRow),
      (∀ i < k, pageLen api (i * PAGE_LIMIT) = PAGE_LIMIT) →
      pageLen api (k * PAGE_LIMIT) < PAGE_LIMIT →
      k < fuel →
      ∃ st', syncDishesRun (fun _ => false) api (fun _ => false) fuel st =
        some ⟨st', (List.range (k + 1)).map (fun i => i * PAGE_LIMIT),
          ((List.range (k + 1)).map (fun i => pageLen api (i * PAGE_LIMIT))).sum,
          none⟩) ∧
    (∀ (api : String → String → Nat → Option (List ZOrder))
      (ifails : ZItem → Bool) (fromDate toDate : Option CalDate) (now : CalDate)
      (pages : Nat → Option (List ZOrder)) (k fuel : Nat) (st : OrdersStore),
      api (dateUtils.formatYyyyMmDd (syncOrdersDates fromDate toDate now).1)
          (dateUtils.formatYyyyMmDd (syncOrdersDates fromDate toDate now).2) =
        pages →
      (∀ i < k, pageLen pages (i * PAGE_LIMIT) = PAGE_LIMIT) →
      pageLen pages (k * PAGE_LIMIT) < PAGE_LIMIT →
      k < fuel →
      ∃ st', syncOrdersRun (fun _ => false) api (fun _ => false) ifails
          fromDate toDate now fuel st =
        some ⟨st', (List.range (k + 1)).map (fun i => i * PAGE_LIMIT),
          ((List.range (k + 1)).map (fun i => pageLen pages (i * PAGE_LIMIT))).sum,
          none⟩) := by
  constructor
  · intro api k fuel st hfull hshort hfuel
    have h := pagedLoop_pages (dishPageLoop (fun _ => false))
      (fun s d => dishPageLoop_no_fail_ok s d) api k fuel 0 0 st []
      (fun i hi => by simpa using hfull i hi) (by simpa using hshort) hfuel
    simpa [syncDishesRun] using h
  · intro api ifails fromDate toDate now pages k fuel st hpages hfull hshort hfuel
    have h := pagedLoop_pages (orderPageLoop (fun _ => false) ifails)
      (fun s d => orderPageLoop_no_fail_ok ifails s d) pages k fuel 0 0 st []
      (fun i hi => by simpa using hfull i hi) (by simpa using hshort) hfuel
    simpa [syncOrdersRun, hpages] using h

/-! Sample records used by the concrete witnesses. -/

/-- A concrete remote dish record. -/
def sampleDish (n : Int) : ZDish where
  id := n
  id_restaurant := .num 1
  remote_id := .undefined
  sku := .undefined
  name := .str "dish"
  description := .undefined
  image := .undefined
  thumb := .undefined
  price := .num 500
  price_togo := .undefined
  price_delivery := .undefined
  happy_price := .undefined
  cost_price := .undefined
  tax := .undefined
  tax_takeaway := .undefined
  tax_delivery := .undefined
  tags := .undefined
  options := .undefined
  id_fabrication_place := .undefined
  color := .undefined
  loyalty_points := .undefined
  earn_loyalty := .undefined
  price_to_define := .undefined
  disable := .undefined
  disable_takeaway := .undefined
  disable_delivery := .undefined
  meta := .undefined

/-- A concrete remote order line item. -/
def sampleItem (n : Int) : ZItem where
  id := n
  item_id := .str "7"
  name := .str "item"
  type := .undefined
  course := .undefined
  comment := .undefined
  price := .undefined
  modifiers := .undefined

/-- A concrete remote order record carrying the given items. -/
def sampleOrder (n : Int) (its : Option (List ZItem)) : ZOrder where
  id := n
  uuid := .str "u"
  comment := .undefined
  device_id := .undefined
  closed_by_device_id := .undefined
  remote_id := .undefined
  ref := .undefined
  loyalty := .undefined
  seats := .undefined
  table := .undefined
  id_restaurant := .num 1
  created_at := .str "2025-03-01T10:00:00+01:00"
  closed_at := .undefined
  due_date := .undefined
  mode := .undefined
  fulfillment_type := .undefined
  source := .undefined
  origin_name := .undefined
  status := .str "closed"
  price := .undefined
  virtual_brand_name := .undefined
  first_name := .undefined
  phone := .undefined
  buzzer_ref := .undefined
  display_id := .undefined
  items := its

/-- Dish pages for the C1 witness: one full page, then an empty page. -/
def dishApiW : Nat → Option (List ZDish) :=
  fun offset =>
    if offset = 0 then some ((List.range PAGE_LIMIT).map (fun i => sampleDish i))
    else some []

/-- Order pages for the C1 witness: a single short page. -/
def orderPagesW : Nat → Option (List ZOrder) :=
  fun offset => if offset = 0 then some [sampleOrder 1 none] else none

/-- C1 witness: the dish synchronizer on one full page followed by an empty
page (`k = 1`), and the order synchronizer on a single short page
(`k = 0`). -/
theorem claim_C1_pagination_witness :
    ((∀ i < 1, pageLen dishApiW (i * PAGE_LIMIT) = PAGE_LIMIT) ∧
      pageLen dishApiW (1 * PAGE_LIMIT) < PAGE_LIMIT ∧ 1 < 2 ∧
      ∃ st', syncDishesRun (fun _ => false) dishApiW (fun _ => false) 2 [] =
        some ⟨st', (List.range 2).map (fun i => i * PAGE_LIMIT),
          ((List.range 2).map (fun i => pageLen dishApiW (i * PAGE_LIMIT))).sum,
          none⟩) ∧
    ((∀ i < 0, pageLen orderPagesW (i * PAGE_LIMIT) = PAGE_LIMIT) ∧
      pageLen orderPagesW (0 * PAGE_LIMIT) < PAGE_LIMIT ∧ 0 < 1 ∧
      ∃ st', syncOrdersRun (fun _ => false) (fun _ _ => orderPagesW)
          (fun _ => false) (fun _ => false) none none ⟨2025, 3, 15⟩ 1
          ⟨[], []⟩ =
        some ⟨st', (List.range 1).map (fun i => i * PAGE_LIMIT),
          ((List.range 1).map (fun i => pageLen orderPagesW (i * PAGE_LIMIT))).sum,
          none⟩) := by
  refine ⟨⟨?_, ?_, ?_, ?_⟩, ⟨?_, ?_, ?_, ?_⟩⟩
  · decide
  · decide
  · decide
  · exact claim_C1_pagination.1 dishApiW 1 2 [] (by decide) (by decide) (by decide)
  · decide
  · decide
  · decide
  · exact claim_C1_pagination.2 (fun _ _ => orderPagesW) (fun _ => false)
      none none ⟨2025, 3, 15⟩ orderPagesW 0 1 ⟨[], []⟩ rfl
      (by decide) (by decide) (by decide)

/-! ## Claim C2: default date range of the order synchronizer -/

/-- C2: When `syncOrders` is called without `fromDate`/`toDate`, the
defaults are `fromDate` = (start of the current calendar month) minus one
day and `toDate` = end of the current calendar month; with the clock fixed
at 2025-03-15 this gives `fromDate = 2025-02-28` and
`toDate = 2025-03-31`. -/
theorem claim_C2_default_dates :
    (∀ now : CalDate, syncOrdersDates none none now =
      (dateUtils.sub (dateUtils.startOfMonth now) 1, dateUtils.endOfMonth now)) ∧
    syncOrdersDates none none ⟨2025, 3, 15⟩ = (⟨2025, 2, 28⟩, ⟨2025, 3, 31⟩) :=
  ⟨fun _ => rfl, by decide⟩

/-! ## Claim C4: scheduler tick sequencing -/

/-- C4: Every scheduler tick invokes restaurant-sync, then dish-sync, then
order-sync, in that strict sequence; if restaurant-sync throws, neither
dish-sync nor order-sync is invoked in that tick and the exception
propagates out of the tick handler (likewise for a dish-sync failure and
order-sync). The sequential model itself reflects that the three awaits
never overlap. -/
theorem claim_C4_scheduler_sequence :
    (∀ (e : SyncErr) (dishesRes ordersRes : Except SyncErr Unit),
      syncZeltyTick (.error e) dishesRes ordersRes =
        ([SyncStep.restaurants], .error e)) ∧
    (∀ (e : SyncErr) (ordersRes : Except SyncErr Unit),
      syncZeltyTick (.ok ()) (.error e) ordersRes =
        ([SyncStep.restaurants, SyncStep.dishes], .error e)) ∧
    (∀ e : SyncErr,
      syncZeltyTick (.ok ()) (.ok ()) (.error e) =
        ([SyncStep.restaurants, SyncStep.dishes, SyncStep.orders], .error e)) ∧
    syncZeltyTick (.ok ()) (.ok ()) (.ok ()) =
      ([SyncStep.restaurants, SyncStep.dishes, SyncStep.orders], .ok ()) :=
  ⟨fun _ _ _ => rfl, fun _ _ => rfl, fun _ => rfl, rfl⟩

/-! ## Claims C5 and C10: field mapping -/

/-- A representative remote restaurant record: concrete values everywhere,
with the optional `closures` absent. -/
def sampleRestaurantC5 : ZRestaurant where
  id := 42
  remote_id := .str "R-42"
  disable := .bool false
  name := .str "Chez Nous"
  description := .str "bistro"
  country_code := .str "FR"
  currency := .str "EUR"
  image := .str "http://img"
  default_lang := .str "fr"
  production_delay := .num 10
  delivery_time := .num 30
  ordering_available := .bool true
  delivery_charge := .num 250
  delivery_charge_tva := .num 10
  delivery_minimum := .num 1500
  delivery_no_charge_min := .num 3000
  delivery_hours := .arr []
  opening_hours := .arr []
  opening_hours_txt := .str "9h-18h"
  happy_hours := .arr []
  closures := .undefined
  address := .obj [("city", .str "Paris")]
  phone := .str "+33100000000"
  public_name := .str "Chez Nous Public"
  online_ordering_hidden := .bool false
  loc := .obj [("lat", .num 48), ("lng", .num 2)]
  takeaway_delay := .num 5
  ordering_delay := .num 0
  delay := .num 0
  meta := .null

/-- A representative remote dish record with every optional field absent. -/
def sampleDishC5 : ZDish where
  id := 7
  id_restaurant := .num 42
  remote_id := .undefined
  sku := .undefined
  name := .str "Burger"
  description := .undefined
  image := .undefined
  thumb := .undefined
  price := .undefined
  price_togo := .undefined
  price_delivery := .undefined
  happy_price := .undefined
  cost_price := .undefined
  tax := .undefined
  tax_takeaway := .undefined
  tax_delivery := .undefined
  tags := .undefined
  options := .undefined
  id_fabrication_place := .undefined
  color := .undefined
  loyalty_points := .undefined
  earn_loyalty := .undefined
  price_to_define := .undefined
  disable := .undefined
  disable_takeaway := .undefined
  disable_delivery := .undefined
  meta := .undefined

/-- C5: The restaurant and dish mappings apply the documented renamings
(remote `country_code` to local `countryCode`, etc.) and the documented
defaults for absent optional fields (missing `disable` maps to `false`,
missing `tags` to the empty list, missing `closures` to the empty list),
for every record; on the representative records every field of the mapped
row is as documented. -/
theorem claim_C5_field_mapping :
    (∀ r : ZRestaurant, (restaurantRow r).countryCode = r.country_code) ∧
    (∀ r : ZRestaurant, (restaurantRow r).closures = jsNullish r.closures (.arr [])) ∧
    (∀ d : ZDish, (dishRow d).disable = jsNullish d.disable (.bool false)) ∧
    (∀ d : ZDish, (dishRow d).tags = jsNullish d.tags (.arr [])) ∧
    restaurantRow sampleRestaurantC5 =
      { remoteId := .str "R-42"
        disable := .bool false
        name := .str "Chez Nous"
        description := .str "bistro"
        countryCode := .str "FR"
        currency := .str "EUR"
        image := .str "http://img"
        defaultLang := .str "fr"
        productionDelay := .num 10
        deliveryTime := .num 30
        orderingAvailable := .bool true
        deliveryCharge := .num 250
        deliveryChargeTva := .num 10
        deliveryMinimum := .num 1500
        deliveryNoChargeMin := .num 3000
        deliveryHours := .arr []
        openingHours := .arr []
        openingHoursTxt := .str "9h-18h"
        happyHours := .arr []
        closures := .arr []
        address := .obj [("city", .str "Paris")]
        phone := .str "+33100000000"
        publicName := .str "Chez Nous Public"
        onlineOrderingHidden := .bool false
        latitude := .num 48
        longitude := .num 2
        takeawayDelay := .num 5
        orderingDelay := .num 0
        delay := .num 0
        meta := .null } ∧
    dishRow sampleDishC5 =
      { zeltyRestaurantId := .num 42
        remoteId := .null
        sku := .null
        name := .str "Burger"
        description := .null
        image := .null
        thumb := .null
        price := .num 0
        priceTogo := .null
        priceDelivery := .null
        happyPrice := .null
        costPrice := .null
        tax := .num 0
        taxTakeaway := .null
        taxDelivery := .null
        tags := .arr []
        options := .arr []
        fabricationPlaceId := .null
        color := .null
        loyaltyPoints := .num 0
        earnLoyalty := .num 0
        priceToDefine := .bool false
        disable := .bool false
        disableTakeaway := .bool false
        disableDelivery := .bool false
        meta := .null } :=
  ⟨fun _ => rfl, fun _ => rfl, fun _ => rfl, fun _ => rfl, rfl, rfl⟩

/-- C10: The image (and dish thumb) fields use falsy coercion (`|| null`):
an empty-string (or `0`, or `false`) image maps to `null`; fields mapped
with `??` (e.g. dish `description`, `sku`) preserve the empty string as a
value. -/
theorem claim_C10_falsy_image_coercion :
    (∀ r : ZRestaurant, (restaurantRow r).image = jsOrNull r.image) ∧
    (∀ d : ZDish, (dishRow d).image = jsOrNull d.image) ∧
    (∀ d : ZDish, (dishRow d).thumb = jsOrNull d.thumb) ∧
    (jsOrNull (.str "") = .null ∧ jsOrNull (.num 0) = .null ∧
      jsOrNull (.bool false) = .null) ∧
    (∀ dft : JSVal, jsNullish (.str "") dft = .str "") ∧
    (restaurantRow { sampleRestaurantC5 with image := .str "" }).image = .null ∧
    (dishRow { sampleDishC5 with image := .str "", thumb := .num 0 }).image = .null ∧
    (dishRow { sampleDishC5 with image := .str "", thumb := .num 0 }).thumb = .null ∧
    (dishRow { sampleDishC5 with description := .str "" }).description = .str "" ∧
    (dishRow { sampleDishC5 with sku := .str "" }).sku = .str "" :=
  ⟨fun _ => rfl, fun _ => rfl, fun _ => rfl, ⟨rfl, rfl, rfl⟩, fun _ => rfl,
    rfl, rfl, rfl, rfl, rfl⟩

/-! ## Claims C9 and C6: header redaction and error interception -/

theorem sanitizeHeaders_mem_redacted (h : Option Headers) (p : String × String)
    (hp : p ∈ (sanitizeHeaders h).getD [])
    (hs : lowerStr p.1 ∈ sensitiveKeys) : p.2 = "[REDACTED]" := by
  cases h with
  | none => simp [sanitizeHeaders] at hp
  | some headers =>
    simp only [sanitizeHeaders, Option.getD_some, List.mem_map] at hp
    obtain ⟨e, _, he⟩ := hp
    by_cases hc : lowerStr e.1 ∈ sensitiveKeys
    · rw [if_pos hc] at he
      rw [← he]
    · rw [if_neg hc] at he
      rw [← he] at hs
      exact absurd hs hc

/-- C9: `sanitizeHeaders` returns `undefined` iff its input is `undefined`;
otherwise it returns a map with exactly the input's keys in which every key
whose lowercase form is `authorization`, `cookie` or `x-api-key` is bound
to the fixed string `'[REDACTED]'` and every other key keeps its original
value (position by position, so the input's shape is preserved). -/
theorem claim_C9_sanitizeHeaders :
    (∀ h : Option Headers, sanitizeHeaders h = none ↔ h = none) ∧
    (∀ hs : Headers,
      ((sanitizeHeaders (some hs)).getD []).map Prod.fst = hs.map Prod.fst) ∧
    (∀ (hs : Headers) (i : Nat), ∀ hi : i < hs.length,
      ((sanitizeHeaders (some hs)).getD [])[i]? =
        some (if lowerStr (hs.get ⟨i, hi⟩).1 ∈ sensitiveKeys
              then ((hs.get ⟨i, hi⟩).1, "[REDACTED]")
              else hs.get ⟨i, hi⟩)) := by
  refine ⟨?_, ?_, ?_⟩
  · intro h
    cases h with
    | none => simp [sanitizeHeaders]
    | some hs => simp [sanitizeHeaders]
  · intro hs
    simp only [sanitizeHeaders, Option.getD_some, List.map_map]
    refine List.map_congr_left ?_
    intro e _
    by_cases hc : lowerStr e.1 ∈ sensitiveKeys
    · simp [hc, Function.comp]
    · simp [hc, Function.comp]
  · intro hs i hi
    simp only [sanitizeHeaders, Option.getD_some]
    rw [List.getElem?_map, List.getElem?_eq_getElem hi]
    rfl

/-- C9 witness: a concrete header map with a credential header (mixed
case) and an innocuous header. -/
theorem claim_C9_sanitizeHeaders_witness :
    (0 < ([("Authorization", "Bearer k"), ("Accept", "json")] : Headers).length) ∧
    (1 < ([("Authorization", "Bearer k"), ("Accept", "json")] : Headers).length) ∧
    ((sanitizeHeaders
        (some [("Authorization", "Bearer k"), ("Accept", "json")])).getD [])[0]? =
      some ("Authorization", "[REDACTED]") ∧
    ((sanitizeHeaders
        (some [("Authorization", "Bearer k"), ("Accept", "json")])).getD [])[1]? =
      some ("Accept", "json") := by
  refine ⟨by decide, by decide, ?_, ?_⟩
  · have h := claim_C9_sanitizeHeaders.2.2
      [("Authorization", "Bearer k"), ("Accept", "json")] 0 (by decide)
    rw [h]
    decide
  · have h := claim_C9_sanitizeHeaders.2.2
      [("Authorization", "Bearer k"), ("Accept", "json")] 1 (by decide)
    rw [h]
    decide

/-- C6: Every request failure is logged with method (uppercased), url,
status, and a redacted copy of the request headers (credential and cookie
values replaced by `'[REDACTED]'`), and is then re-raised to the caller
unchanged: the rejected error is the very error that was intercepted. A
fulfilled response passes through with no log; the interceptor issues no
further request. -/
theorem claim_C6_error_logging :
    (∀ e : AxiosError,
      responseInterceptor (.error e) = (some (logAxiosError e), .error e)) ∧
    (∀ r : AxiosResponse, responseInterceptor (.ok r) = (none, .ok r)) ∧
    (∀ e : AxiosError,
      (logAxiosError e).method = (e.config.bind (·.method)).map upperStr ∧
      (logAxiosError e).url = e.config.bind (·.url) ∧
      (logAxiosError e).status = e.response.map (·.status) ∧
      (logAxiosError e).requestHeaders =
        sanitizeHeaders (e.config.bind (·.headers))) ∧
    (∀ (e : AxiosError) (p : String × String),
      p ∈ ((logAxiosError e).requestHeaders.getD []) →
      lowerStr p.1 ∈ sensitiveKeys → p.2 = "[REDACTED]") := by
  refine ⟨fun _ => rfl, fun _ => rfl, fun _ => ⟨rfl, rfl, rfl, rfl⟩, ?_⟩
  intro e p hp hsens
  exact sanitizeHeaders_mem_redacted _ p hp hsens

/-- C6 witness: a concrete 500 error whose request carried an
`Authorization` header; its logged copy is redacted. -/
theorem claim_C6_error_logging_witness :
    (("Authorization", "[REDACTED]") ∈
      ((logAxiosError
        { message := "Request failed with status code 500"
          code := some "ERR_BAD_RESPONSE"
          config := some
            { url := some "orders"
              method := some "get"
              baseURL := some "https://api.zelty.fr/2.7/"
              headers := some [("Authorization", "Bearer secret"),
                ("Accept", "application/json")] }
          response := some
            { status := 500
              statusText := "Internal Server Error"
              data := .null
              headers := [] } }).requestHeaders.getD [])) ∧
    (lowerStr "Authorization" ∈ sensitiveKeys) ∧
    ("Authorization", "[REDACTED]").2 = "[REDACTED]" := by
  refine ⟨by decide, by decide, ?_⟩
  exact claim_C6_error_logging.2.2.2
    { message := "Request failed with status code 500"
      code := some "ERR_BAD_RESPONSE"
      config := some
        { url := some "orders"
          method := some "get"
          baseURL := some "https://api.zelty.fr/2.7/"
          headers := some [("Authorization", "Bearer secret"),
            ("Accept", "application/json")] }
      response := some
        { status := 500
          statusText := "Internal Server Error"
          data := .null
          headers := [] } }
    ("Authorization", "[REDACTED]") (by decide) (by decide)

/-! ## Claim C8: restaurant synchronizer abort semantics -/

theorem restaurantRecordLoop_ok_keys (ufails : ZRestaurant → Bool)
    (st : ListStore RestaurantRow) (pre : List ZRestaurant)
    (h : ∀ r ∈ pre, ufails r = false) :
    (restaurantRecordLoop ufails st pre).2 = none ∧
    keys st ⊆ keys (restaurantRecordLoop ufails st pre).1 ∧
    ∀ r ∈ pre, r.id ∈ keys (restaurantRecordLoop ufails st pre).1 := by
  induction pre generalizing st with
  | nil => exact ⟨rfl, List.Subset.refl _, by simp⟩
  | cons r rs ih =>
    have hr : ufails r = false := h r (List.mem_cons_self r rs)
    have ih2 := ih (upsertStore st r.id (restaurantRow r))
      (fun x hx => h x (List.mem_cons_of_mem r hx))
    refine ⟨?_, ?_, ?_⟩
    · simpa [restaurantRecordLoop, hr] using ih2.1
    · intro k hk
      have h1 : k ∈ keys (upsertStore st r.id (restaurantRow r)) :=
        keys_subset_upsert st r.id (restaurantRow r) hk
      simpa [restaurantRecordLoop, hr] using ih2.2.1 h1
    · intro x hx
      rcases List.mem_cons.mp hx with hx | hx
      · subst hx
        have h1 : x.id ∈ keys (upsertStore st x.id (restaurantRow x)) :=
          mem_keys_upsert_self x.id (restaurantRow x)
        simpa [restaurantRecordLoop, hr] using ih2.2.1 h1
      · simpa [restaurantRecordLoop, hr] using ih2.2.2 x hx

theorem restaurantRecordLoop_fail_split (ufails : ZRestaurant → Bool)
    (st : ListStore RestaurantRow) (pre post : List ZRestaurant)
    (bad : ZRestaurant) (hpre : ∀ r ∈ pre, ufails r = false)
    (hbad : ufails bad = true) :
    restaurantRecordLoop ufails st (pre ++ bad :: post) =
      ((restaurantRecordLoop ufails st pre).1, some .upsertFail) := by
  induction pre generalizing st with
  | nil => simp [restaurantRecordLoop, hbad]
  | cons r rs ih =>
    have hr : ufails r = false := hpre r (List.mem_cons_self r rs)
    simp only [List.cons_append, restaurantRecordLoop, hr, Bool.false_eq_true,
      if_false]
    exact ih _ (fun x hx => hpre x (List.mem_cons_of_mem r hx))

/-- C8: In the restaurant synchronizer, a failed fetch aborts the run with
no record attempted; a failed upsert of the record at position `i` aborts
the run with exactly the records before position `i` committed — later
records are not attempted, earlier rows remain in the store (no rollback) —
and the error is re-raised. -/
theorem claim_C8_restaurant_abort :
    (∀ (ufails : ZRestaurant → Bool) (st : ListStore RestaurantRow) (e : SyncErr),
      syncRestaurantsRun (.error e) ufails st = (st, some e)) ∧
    (∀ (ufails : ZRestaurant → Bool) (st : ListStore RestaurantRow)
      (pre post : List ZRestaurant) (bad : ZRestaurant),
      (∀ r ∈ pre, ufails r = false) → ufails bad = true →
      syncRestaurantsRun (.ok (pre ++ bad :: post)) ufails st =
        ((restaurantRecordLoop ufails st pre).1, some .upsertFail) ∧
      ∀ r ∈ pre, r.id ∈ keys (restaurantRecordLoop ufails st pre).1) := by
  refine ⟨fun _ _ _ => rfl, ?_⟩
  intro ufails st pre post bad hpre hbad
  refine ⟨?_, (restaurantRecordLoop_ok_keys ufails st pre hpre).2.2⟩
  simpa [syncRestaurantsRun] using
    restaurantRecordLoop_fail_split ufails st pre post bad hpre hbad

/-- The failure predicate of the C8 witness: the upsert of the restaurant
with remote id 99 throws. -/
def restUfailsW : ZRestaurant → Bool := fun r => r.id == 99

/-- The failing record of the C8 witness. -/
def restBadW : ZRestaurant := { sampleRestaurantC5 with id := 99 }

/-- C8 witness: a two-record list whose second record's upsert throws; the
first record's row is committed and the run aborts. -/
theorem claim_C8_restaurant_abort_witness :
    ((∀ r ∈ [sampleRestaurantC5], restUfailsW r = false) ∧
      restUfailsW restBadW = true) ∧
    (syncRestaurantsRun (.ok ([sampleRestaurantC5] ++ restBadW :: []))
        restUfailsW [] =
      ((restaurantRecordLoop restUfailsW [] [sampleRestaurantC5]).1,
        some .upsertFail) ∧
      ∀ r ∈ [sampleRestaurantC5],
        r.id ∈ keys (restaurantRecordLoop restUfailsW [] [sampleRestaurantC5]).1) := by
  refine ⟨⟨?_, ?_⟩, ?_⟩
  · intro r hr
    rcases List.mem_singleton.mp hr with rfl
    rfl
  · rfl
  · exact claim_C8_restaurant_abort.2 restUfailsW [] [sampleRestaurantC5] []
      restBadW (by intro r hr; rcases List.mem_singleton.mp hr with rfl; rfl) rfl

/-! ## Claim C3: order-item failure isolation -/

theorem itemLoop_keys_mono (ifails : ZItem → Bool) (oid : Int) :
    ∀ (st : ListStore ItemRow) (its : List ZItem),
    keys st ⊆ keys (itemLoop ifails oid st its) := by
  intro st its
  induction its generalizing st with
  | nil => exact List.Subset.refl _
  | cons it its ih =>
    intro k hk
    by_cases hf : ifails it
    · have : keys st ⊆ keys (itemLoop ifails oid st its) := ih st
      simpa [itemLoop, hf] using this hk
    · have h1 : k ∈ keys (upsertStore st it.id (itemRow oid it)) :=
        keys_subset_upsert st it.id (itemRow oid it) hk
      have : keys (upsertStore st it.id (itemRow oid it)) ⊆
          keys (itemLoop ifails oid (upsertStore st it.id (itemRow oid it)) its) :=
        ih _
      simpa [itemLoop, hf] using this h1

theorem itemLoop_adds (ifails : ZItem → Bool) (oid : Int) :
    ∀ (st : ListStore ItemRow) (its : List ZItem),
    ∀ it ∈ its, ifails it = false → it.id ∈ keys (itemLoop ifails oid st its) := by
  intro st its
  induction its generalizing st with
  | nil => simp
  | cons x xs ih =>
    intro it hit hif
    rcases List.mem_cons.mp hit with rfl | hit
    · have h1 : it.id ∈ keys (upsertStore st it.id (itemRow oid it)) :=
        mem_keys_upsert_self it.id (itemRow oid it)
      have h2 := itemLoop_keys_mono ifails oid
        (upsertStore st it.id (itemRow oid it)) xs
      simpa [itemLoop, hif] using h2 h1
    · by_cases hf : ifails x
      · simpa [itemLoop, hf] using ih st it hit hif
      · simpa [itemLoop, hf] using ih _ it hit hif

theorem orderPageLoop_ok_keys (ofails : ZOrder → Bool) (ifails : ZItem → Bool)
    (st : OrdersStore) (os : List ZOrder) (h : ∀ o ∈ os, ofails o = false) :
    (orderPageLoop ofails ifails st os).2 = none ∧
    keys st.orders ⊆ keys (orderPageLoop ofails ifails st os).1.orders ∧
    keys st.items ⊆ keys (orderPageLoop ofails ifails st os).1.items ∧
    (∀ o ∈ os, o.id ∈ keys (orderPageLoop ofails ifails st os).1.orders) ∧
    (∀ o ∈ os, ∀ its, o.items = some its → ∀ it ∈ its, ifails it = false →
      it.id ∈ keys (orderPageLoop ofails ifails st os).1.items) := by
  induction os generalizing st with
  | nil =>
    exact ⟨rfl, List.Subset.refl _, List.Subset.refl _, by simp, by simp⟩
  | cons o os ih =>
    have ho : ofails o = false := h o (List.mem_cons_self o os)
    set st1 : OrdersStore :=
      { st with orders := upsertStore st.orders o.id (orderRow o) } with hst1
    set st2 : OrdersStore :=
      match o.items with
      | some its => { st1 with items := itemLoop ifails o.id st1.items its }
      | none => st1 with hst2
    have hstep : orderPageLoop ofails ifails st (o :: os) =
        orderPageLoop ofails ifails st2 os := by
      simp [orderPageLoop, ho, hst1, hst2]
    have ih2 := ih st2 (fun x hx => h x (List.mem_cons_of_mem o hx))
    have horders1 : keys st.orders ⊆ keys st1.orders :=
      keys_subset_upsert st.orders o.id (orderRow o)
    have horders2 : keys st1.orders = keys st2.orders := by
      cases hits : o.items with
      | none => simp [hst2, hits]
      | some its => simp [hst2, hits]
    have hitems1 : keys st.items ⊆ keys st2.items := by
      cases hits : o.items with
      | none => simp [hst2, hst1, hits]
      | some its =>
        have : keys st1.items ⊆ keys (itemLoop ifails o.id st1.items its) :=
          itemLoop_keys_mono ifails o.id st1.items its
        simpa [hst2, hst1, hits] using this
    refine ⟨by rw [hstep]; exact ih2.1, ?_, ?_, ?_, ?_⟩
    · rw [hstep]
      intro k hk
      exact ih2.2.1 (horders2 ▸ horders1 hk)
    · rw [hstep]
      intro k hk
      exact ih2.2.2.1 (hitems1 hk)
    · intro x hx
      rw [hstep]
      rcases List.mem_cons.mp hx with rfl | hx
      · have h1 : x.id ∈ keys st1.orders :=
          mem_keys_upsert_self x.id (orderRow x)
        exact ih2.2.1 (horders2 ▸ h1)
      · exact ih2.2.2.2.1 x hx
    · intro x hx its hits it hit hif
      rw [hstep]
      rcases List.mem_cons.mp hx with rfl | hx
      · have h1 : it.id ∈ keys st2.items := by
          have : it.id ∈ keys (itemLoop ifails x.id st1.items its) :=
            itemLoop_adds ifails x.id st1.items its it hit hif
          simpa [hst2, hits] using this
        exact ih2.2.2.1 h1
      · exact ih2.2.2.2.2 x hx its hits it hit hif

theorem orderPageLoop_fail_split (ofails : ZOrder → Bool) (ifails : ZItem → Bool)
    (st : OrdersStore) (pre post : List ZOrder) (bad : ZOrder)
    (hpre : ∀ o ∈ pre, ofails o = false) (hbad : ofails bad = true) :
    orderPageLoop ofails ifails st (pre ++ bad :: post) =
      ((orderPageLoop ofails ifails st pre).1, some .upsertFail) := by
  induction pre generalizing st with
  | nil => simp [orderPageLoop, hbad]
  | cons o os ih =>
    have ho : ofails o = false := hpre o (List.mem_cons_self o os)
    simp only [List.cons_append, orderPageLoop, ho, Bool.false_eq_true, if_false]
    exact ih _ (fun x hx => hpre x (List.mem_cons_of_mem o hx))

theorem pagedLoop_ok_err_none {σ α : Type}
    (fetch : Nat → Except SyncErr (Option (List α)))
    (process : σ → List α → σ × Option SyncErr)
    (hfetch : ∀ o, ∃ v, fetch o = .ok v)
    (hok : ∀ s d, (process s d).2 = none) :
    ∀ (fuel offset total : Nat) (st : σ) (reqs : List Nat) (r : RunResult σ),
    pagedLoop fetch process fuel offset total st reqs = some r → r.err = none := by
  intro fuel
  induction fuel with
  | zero => intro offset total st reqs r hr; simp [pagedLoop] at hr
  | succ fuel ih =>
    intro offset total st reqs r hr
    obtain ⟨v, hv⟩ := hfetch offset
    rw [pagedLoop, hv] at hr
    cases v with
    | none =>
      dsimp only at hr
      injection hr with h
      rw [← h]
    | some data =>
      dsimp only at hr
      rcases hp : process st data with ⟨st2, e⟩
      have he : e = none := by have := hok st data; rwa [hp] at this
      subst he
      rw [hp] at hr
      dsimp only at hr
      split at hr
      · injection hr with h
        rw [← h]
      · split at hr
        · injection hr with h
          rw [← h]
        · exact ih _ _ _ _ r hr

/-- C3: In the orders synchronizer, item-level upsert errors are isolated:
for a page whose orders all upsert successfully, the page loop never
throws (whatever items fail), every order's own row is upserted, and every
non-failing item of every order is upserted; a run whose pages are fetched
successfully and whose orders all upsert successfully never ends in an
error (item failures are caught, logged and swallowed). By contrast, an
order-level upsert error ends the page at that order and aborts the run as
an `upsertFail`, and a page-fetch error aborts the run as a `fetchFail`. -/
theorem claim_C3_item_isolation :
    (∀ (ofails : ZOrder → Bool) (ifails : ZItem → Bool) (st : OrdersStore)
      (os : List ZOrder),
      (∀ o ∈ os, ofails o = false) →
      (orderPageLoop ofails ifails st os).2 = none ∧
      (∀ o ∈ os, o.id ∈ keys (orderPageLoop ofails ifails st os).1.orders) ∧
      (∀ o ∈ os, ∀ its, o.items = some its → ∀ it ∈ its, ifails it = false →
        it.id ∈ keys (orderPageLoop ofails ifails st os).1.items)) ∧
    (∀ (api : String → String → Nat → Option (List ZOrder))
      (ofails : ZOrder → Bool) (ifails : ZItem → Bool)
      (fromDate toDate : Option CalDate) (now : CalDate)
      (pages : Nat → Option (List ZOrder)) (fuel : Nat) (st : OrdersStore)
      (pre post : List ZOrder) (bad : ZOrder),
      api (dateUtils.formatYyyyMmDd (syncOrdersDates fromDate toDate now).1)
          (dateUtils.formatYyyyMmDd (syncOrdersDates fromDate toDate now).2) =
        pages →
      pages 0 = some (pre ++ bad :: post) →
      (∀ o ∈ pre, ofails o = false) → ofails bad = true →
      syncOrdersRun (fun _ => false) api ofails ifails fromDate toDate now
          (fuel + 1) st =
        some ⟨(orderPageLoop ofails ifails st pre).1, [0], 0,
          some .upsertFail⟩) ∧
    (∀ (ffails : Nat → Bool) (api : String → String → Nat → Option (List ZOrder))
      (ofails : ZOrder → Bool) (ifails : ZItem → Bool)
      (fromDate toDate : Option CalDate) (now : CalDate) (fuel : Nat)
      (st : OrdersStore),
      ffails 0 = true →
      syncOrdersRun ffails api ofails ifails fromDate toDate now (fuel + 1) st =
        some ⟨st, [0], 0, some .fetchFail⟩) ∧
    (∀ (api : String → String → Nat → Option (List ZOrder))
      (ifails : ZItem → Bool) (fromDate toDate : Option CalDate) (now : CalDate)
      (fuel : Nat) (st : OrdersStore),
      ((syncOrdersRun (fun _ => false) api (fun _ => false) ifails fromDate
          toDate now fuel st).map RunResult.err).getD none = none) := by
  refine ⟨?_, ?_, ?_, ?_⟩
  · intro ofails ifails st os h
    have hall := orderPageLoop_ok_keys ofails ifails st os h
    exact ⟨hall.1, hall.2.2.2.1, hall.2.2.2.2⟩
  · intro api ofails ifails fromDate toDate now pages fuel st pre post bad
      hpages hpage hpre hbad
    have hsplit := orderPageLoop_fail_split ofails ifails st pre post bad hpre hbad
    simp [syncOrdersRun, pagedLoop, fetchEnv, hpages, hpage, hsplit]
  · intro ffails api ofails ifails fromDate toDate now fuel st hf
    simp [syncOrdersRun, pagedLoop, fetchEnv, hf]
  · intro api ifails fromDate toDate now fuel st
    cases hrun : syncOrdersRun (fun _ => false) api (fun _ => false) ifails
        fromDate toDate now fuel st with
    | none => simp
    | some r =>
      have herr := pagedLoop_ok_err_none _ (orderPageLoop (fun _ => false) ifails)
        (fun o => ⟨_, rfl⟩) (fun s d => orderPageLoop_no_fail_ok ifails s d)
        fuel 0 0 st [] r (by simpa [syncOrdersRun] using hrun)
      simp [herr]

/-- The item-failure predicate of the C3 witness: the upsert of item 10
throws. -/
def ifailsW : ZItem → Bool := fun it => it.id == 10

/-- First order of the C3 witness page: carries the failing item 10 and the
healthy item 11. -/
def oW1 : ZOrder := sampleOrder 1 (some [sampleItem 10, sampleItem 11])

/-- Second order of the C3 witness page. -/
def oW2 : ZOrder := sampleOrder 2 (some [sampleItem 20])

/-- The empty orders store. -/
def emptyOrdersStore : OrdersStore := ⟨[], []⟩

/-- The order-failure predicate of the C3 witness: the upsert of order 99
throws. -/
def ofailsW : ZOrder → Bool := fun o => o.id == 99

/-- The failing order of the C3 witness. -/
def badOW : ZOrder := sampleOrder 99 none

/-- Single-page remote data containing the failing order. -/
def orderPagesW3 : Nat → Option (List ZOrder) :=
  fun offset => if offset = 0 then some ([oW1] ++ badOW :: []) else some []

/-- C3 witness: a page of two orders where exactly item 10 of order 1
fails — the page does not throw, both orders' rows and the non-failing
items 11 and 20 are upserted; and concrete runs for the order-level and
fetch-level abort cases. -/
theorem claim_C3_item_isolation_witness :
    ((∀ o ∈ [oW1, oW2], (fun _ : ZOrder => false) o = false) ∧
      (orderPageLoop (fun _ => false) ifailsW emptyOrdersStore [oW1, oW2]).2 =
        none ∧
      oW1.id ∈ keys
        (orderPageLoop (fun _ => false) ifailsW emptyOrdersStore [oW1, oW2]).1.orders ∧
      (sampleItem 11).id ∈ keys
        (orderPageLoop (fun _ => false) ifailsW emptyOrdersStore [oW1, oW2]).1.items ∧
      (sampleItem 20).id ∈ keys
        (orderPageLoop (fun _ => false) ifailsW emptyOrdersStore [oW1, oW2]).1.items) ∧
    (orderPagesW3 0 = some ([oW1] ++ badOW :: []) ∧ ofailsW badOW = true ∧
      syncOrdersRun (fun _ => false) (fun _ _ => orderPagesW3) ofailsW ifailsW
          none none ⟨2025, 3, 15⟩ 1 emptyOrdersStore =
        some ⟨(orderPageLoop ofailsW ifailsW emptyOrdersStore [oW1]).1, [0], 0,
          some .upsertFail⟩) ∧
    ((fun _ : Nat => true) 0 = true ∧
      syncOrdersRun (fun _ => true) (fun _ _ => orderPagesW3) ofailsW ifailsW
          none none ⟨2025, 3, 15⟩ 1 emptyOrdersStore =
        some ⟨emptyOrdersStore, [0], 0, some .fetchFail⟩) := by
  have hiso := claim_C3_item_isolation.1 (fun _ => false) ifailsW
    emptyOrdersStore [oW1, oW2] (fun _ _ => rfl)
  refine ⟨⟨fun _ _ => rfl, hiso.1, ?_, ?_, ?_⟩, ⟨rfl, rfl, ?_⟩, ⟨rfl, ?_⟩⟩
  · exact hiso.2.1 oW1 (by simp)
  · exact hiso.2.2 oW1 (by simp) [sampleItem 10, sampleItem 11] rfl
      (sampleItem 11) (by simp) (by decide)
  · exact hiso.2.2 oW2 (by simp) [sampleItem 20] rfl (sampleItem 20)
      (by simp) (by decide)
  · exact claim_C3_item_isolation.2.1 (fun _ _ => orderPagesW3) ofailsW ifailsW
      none none ⟨2025, 3, 15⟩ orderPagesW3 0 emptyOrdersStore [oW1] [] badOW
      rfl rfl (fun o ho => by rcases List.mem_singleton.mp ho with rfl; rfl)
      (by decide)
  · exact claim_C3_item_isolation.2.2.1 (fun _ => true) (fun _ _ => orderPagesW3)
      ofailsW ifailsW none none ⟨2025, 3, 15⟩ 0 emptyOrdersStore rfl

/-! ## Claim C7: idempotence of re-running a synchronizer -/

theorem itemLoop_nodup (ifails : ZItem → Bool) (oid : Int) :
    ∀ (st : ListStore ItemRow) (its : List ZItem),
    (keys st).Nodup → (keys (itemLoop ifails oid st its)).Nodup := by
  intro st its
  induction its generalizing st with
  | nil => exact id
  | cons it its ih =>
    intro hn
    by_cases hf : ifails it
    · simpa [itemLoop, hf] using ih st hn
    · simpa [itemLoop, hf] using
        ih _ (nodup_keys_upsert it.id (itemRow oid it) hn)

theorem itemLoop_stable (ifails : ZItem → Bool) (oid : Int) :
    ∀ (st : ListStore ItemRow) (its : List ZItem),
    (∀ it ∈ its, it.id ∈ keys st) →
    keys (itemLoop ifails oid st its) = keys st := by
  intro st its
  induction its generalizing st with
  | nil => intro _; rfl
  | cons it its ih =>
    intro h
    by_cases hf : ifails it
    · simpa [itemLoop, hf] using
        ih st (fun x hx => h x (List.mem_cons_of_mem it hx))
    · have hmem : it.id ∈ keys st := h it (List.mem_cons_self it its)
      have hkeys : keys (upsertStore st it.id (itemRow oid it)) = keys st :=
        keys_upsert_of_mem (itemRow oid it) hmem
      have := ih (upsertStore st it.id (itemRow oid it))
        (fun x hx => by rw [hkeys]; exact h x (List.mem_cons_of_mem it hx))
      simpa [itemLoop, hf, hkeys] using this

theorem dishPageLoop_keys (st : ListStore DishRow) (ds : List ZDish) :
    keys st ⊆ keys (dishPageLoop (fun _ => false) st ds).1 ∧
    (∀ d ∈ ds, d.id ∈ keys (dishPageLoop (fun _ => false) st ds).1) ∧
    ((keys st).Nodup → (keys (dishPageLoop (fun _ => false) st ds).1).Nodup) := by
  induction ds generalizing st with
  | nil => exact ⟨List.Subset.refl _, by simp, id⟩
  | cons d ds ih =>
    have ih2 := ih (upsertStore st d.id (dishRow d))
    refine ⟨?_, ?_, ?_⟩
    · intro k hk
      have h1 : k ∈ keys (upsertStore st d.id (dishRow d)) :=
        keys_subset_upsert st d.id (dishRow d) hk
      simpa [dishPageLoop] using ih2.1 h1
    · intro x hx
      rcases List.mem_cons.mp hx with rfl | hx
      · have h1 : x.id ∈ keys (upsertStore st x.id (dishRow x)) :=
          mem_keys_upsert_self x.id (dishRow x)
        simpa [dishPageLoop] using ih2.1 h1
      · simpa [dishPageLoop] using ih2.2.1 x hx
    · intro hn
      simpa [dishPageLoop] using
        ih2.2.2 (nodup_keys_upsert d.id (dishRow d) hn)

theorem dishPageLoop_stable (st : ListStore DishRow) (ds : List ZDish)
    (h : ∀ d ∈ ds, d.id ∈ keys st) :
    keys (dishPageLoop (fun _ => false) st ds).1 = keys st := by
  induction ds generalizing st with
  | nil => rfl
  | cons d ds ih =>
    have hmem : d.id ∈ keys st := h d (List.mem_cons_self d ds)
    have hkeys : keys (upsertStore st d.id (dishRow d)) = keys st :=
      keys_upsert_of_mem (dishRow d) hmem
    have := ih (upsertStore st d.id (dishRow d))
      (fun x hx => by rw [hkeys]; exact h x (List.mem_cons_of_mem d hx))
    simpa [dishPageLoop, hkeys] using this

theorem restaurantRecordLoop_nodup (st : ListStore RestaurantRow)
    (rs : List ZRestaurant) (hn : (keys st).Nodup) :
    (keys (restaurantRecordLoop (fun _ => false) st rs).1).Nodup := by
  induction rs generalizing st with
  | nil => exact hn
  | cons r rs ih =>
    simpa [restaurantRecordLoop] using
      ih _ (nodup_keys_upsert r.id (restaurantRow r) hn)

theorem restaurantRecordLoop_stable (st : ListStore RestaurantRow)
    (rs : List ZRestaurant) (h : ∀ r ∈ rs, r.id ∈ keys st) :
    keys (restaurantRecordLoop (fun _ => false) st rs).1 = keys st := by
  induction rs generalizing st with
  | nil => rfl
  | cons r rs ih =>
    have hmem : r.id ∈ keys st := h r (List.mem_cons_self r rs)
    have hkeys : keys (upsertStore st r.id (restaurantRow r)) = keys st :=
      keys_upsert_of_mem (restaurantRow r) hmem
    have := ih (upsertStore st r.id (restaurantRow r))
      (fun x hx => by rw [hkeys]; exact h x (List.mem_cons_of_mem r hx))
    simpa [restaurantRecordLoop, hkeys] using this

theorem orderPageLoop_nodup (ifails : ZItem → Bool) (st : OrdersStore)
    (os : List ZOrder) (hno : (keys st.orders).Nodup)
    (hni : (keys st.items).Nodup) :
    (keys (orderPageLoop (fun _ => false) ifails st os).1.orders).Nodup ∧
    (keys (orderPageLoop (fun _ => false) ifails st os).1.items).Nodup := by
  induction os generalizing st with
  | nil => exact ⟨hno, hni⟩
  | cons o os ih =>
    set st1 : OrdersStore :=
      { st with orders := upsertStore st.orders o.id (orderRow o) } with hst1
    set st2 : OrdersStore :=
      match o.items with
      | some its => { st1 with items := itemLoop ifails o.id st1.items its }
      | none => st1 with hst2
    have hstep : orderPageLoop (fun _ => false) ifails st (o :: os) =
        orderPageLoop (fun _ => false) ifails st2 os := by
      simp [orderPageLoop, hst1, hst2]
    have hno2 : (keys st2.orders).Nodup := by
      cases hits : o.items with
      | none =>
        simpa [hst2, hst1, hits] using nodup_keys_upsert o.id (orderRow o) hno
      | some its =>
        simpa [hst2, hst1, hits] using nodup_keys_upsert o.id (orderRow o) hno
    have hni2 : (keys st2.items).Nodup := by
      cases hits : o.items with
      | none => simpa [hst2, hst1, hits] using hni
      | some its =>
        simpa [hst2, hst1, hits] using itemLoop_nodup ifails o.id st.items its hni
    rw [hstep]
    exact ih st2 hno2 hni2

theorem orderPageLoop_stable (ifails : ZItem → Bool) (st : OrdersStore)
    (os : List ZOrder)
    (ho : ∀ o ∈ os, o.id ∈ keys st.orders)
    (hi : ∀ o ∈ os, ∀ its, o.items = some its → ∀ it ∈ its, it.id ∈ keys st.items) :
    keys (orderPageLoop (fun _ => false) ifails st os).1.orders = keys st.orders ∧
    keys (orderPageLoop (fun _ => false) ifails st os).1.items = keys st.items := by
  induction os generalizing st with
  | nil => exact ⟨rfl, rfl⟩
  | cons o os ih =>
    set st1 : OrdersStore :=
      { st with orders := upsertStore st.orders o.id (orderRow o) } with hst1
    set st2 : OrdersStore :=
      match o.items with
      | some its => { st1 with items := itemLoop ifails o.id st1.items its }
      | none => st1 with hst2
    have hstep : orderPageLoop (fun _ => false) ifails st (o :: os) =
        orderPageLoop (fun _ => false) ifails st2 os := by
      simp [orderPageLoop, hst1, hst2]
    have hkor : keys st2.orders = keys st.orders := by
      have h1 : keys st1.orders = keys st.orders :=
        keys_upsert_of_mem (orderRow o) (ho o (List.mem_cons_self o os))
      cases hits : o.items with
      | none => simpa [hst2, hits] using h1
      | some its => simpa [hst2, hits] using h1
    have hkit : keys st2.items = keys st.items := by
      cases hits : o.items with
      | none => simp [hst2, hst1, hits]
      | some its =>
        have : keys (itemLoop ifails o.id st.items its) = keys st.items :=
          itemLoop_stable ifails o.id st.items its
            (fun it hit => hi o (List.mem_cons_self o os) its hits it hit)
        simpa [hst2, hst1, hits] using this
    rw [hstep]
    have := ih st2
      (fun x hx => by rw [hkor]; exact ho x (List.mem_cons_of_mem o hx))
      (fun x hx its hits it hit => by
        rw [hkit]; exact hi x (List.mem_cons_of_mem o hx) its hits it hit)
    rw [hkor, hkit] at this
    exact this

theorem ordersKeys_subset_of {a b : OrdersStore}
    (h1 : keys a.orders ⊆ keys b.orders) (h2 : keys a.items ⊆ keys b.items) :
    ordersKeys a ⊆ ordersKeys b := by
  unfold ordersKeys
  exact List.append_subset.mpr
    ⟨(List.map_subset Sum.inl h1).trans (List.subset_append_left _ _),
      (List.map_subset Sum.inr h2).trans (List.subset_append_right _ _)⟩

theorem ordersKeys_subset_components {a b : OrdersStore}
    (h : ordersKeys a ⊆ ordersKeys b) :
    keys a.orders ⊆ keys b.orders ∧ keys a.items ⊆ keys b.items := by
  constructor
  · intro k hk
    have h1 : (Sum.inl k : Int ⊕ Int) ∈ ordersKeys a := by
      unfold ordersKeys
      exact List.mem_append_left _ (List.mem_map_of_mem Sum.inl hk)
    have h2 := h h1
    unfold ordersKeys at h2
    rcases List.mem_append.mp h2 with h2 | h2
    · obtain ⟨x, hx, hex⟩ := List.mem_map.mp h2
      cases hex
      exact hx
    · obtain ⟨x, _, hex⟩ := List.mem_map.mp h2
      cases hex
  · intro k hk
    have h1 : (Sum.inr k : Int ⊕ Int) ∈ ordersKeys a := by
      unfold ordersKeys
      exact List.mem_append_right _ (List.mem_map_of_mem Sum.inr hk)
    have h2 := h h1
    unfold ordersKeys at h2
    rcases List.mem_append.mp h2 with h2 | h2
    · obtain ⟨x, _, hex⟩ := List.mem_map.mp h2
      cases hex
    · obtain ⟨x, hx, hex⟩ := List.mem_map.mp h2
      cases hex
      exact hx

theorem ordersKeys_eq_of {a b : OrdersStore}
    (h1 : keys a.orders = keys b.orders) (h2 : keys a.items = keys b.items) :
    ordersKeys a = ordersKeys b := by
  unfold ordersKeys
  rw [h1, h2]

theorem ordersKeys_nodup_of {a : OrdersStore}
    (h1 : (keys a.orders).Nodup) (h2 : (keys a.items).Nodup) :
    (ordersKeys a).Nodup := by
  unfold ordersKeys
  rw [List.nodup_append]
  refine ⟨h1.map Sum.inl_injective, h2.map Sum.inr_injective, ?_⟩
  intro x hx hy
  obtain ⟨u, _, rfl⟩ := List.mem_map.mp hx
  obtain ⟨v, _, hev⟩ := List.mem_map.mp hy
  exact Sum.inl_ne_inr hev.symm

theorem ordersKeys_nodup_components {a : OrdersStore}
    (h : (ordersKeys a).Nodup) :
    (keys a.orders).Nodup ∧ (keys a.items).Nodup := by
  unfold ordersKeys at h
  rw [List.nodup_append] at h
  exact ⟨(List.nodup_map_iff Sum.inl_injective).mp h.1,
    (List.nodup_map_iff Sum.inr_injective).mp h.2.1⟩

theorem ordersRowCount_eq_length (a : OrdersStore) :
    ordersRowCount a = (ordersKeys a).length := by
  simp [ordersRowCount, ordersKeys, rowCount, keys]

theorem pagedLoop_store_mono {σ α κ : Type} (K : σ → List κ)
    (fetch : Nat → Except SyncErr (Option (List α)))
    (process : σ → List α → σ × Option SyncErr)
    (hmono : ∀ s d, K s ⊆ K (process s d).1) :
    ∀ (fuel offset total : Nat) (st : σ) (reqs : List Nat) (r : RunResult σ),
    pagedLoop fetch process fuel offset total st reqs = some r →
    K st ⊆ K r.store := by
  intro fuel
  induction fuel with
  | zero => intro _ _ _ _ r hr; simp [pagedLoop] at hr
  | succ fuel ih =>
    intro offset total st reqs r hr
    rw [pagedLoop] at hr
    cases hF : fetch offset with
    | error e =>
      rw [hF] at hr
      dsimp only at hr
      injection hr with h
      rw [← h]
      exact List.Subset.refl _
    | ok v =>
      rw [hF] at hr
      cases v with
      | none =>
        dsimp only at hr
        injection hr with h
        rw [← h]
        exact List.Subset.refl _
      | some data =>
        dsimp only at hr
        by_cases hz : data.length = 0
        · rw [if_pos hz] at hr
          injection hr with h
          rw [← h]
          exact List.Subset.refl _
        · rw [if_neg hz] at hr
          rcases hp : process st data with ⟨st2, e⟩
          have hsub : K st ⊆ K st2 := by
            have := hmono st data
            rwa [hp] at this
          cases e with
          | some err =>
            rw [hp] at hr
            dsimp only at hr
            injection hr with h
            rw [← h]
            exact hsub
          | none =>
            rw [hp] at hr
            dsimp only at hr
            by_cases hshort : data.length < PAGE_LIMIT
            · rw [if_pos hshort] at hr
              injection hr with h
              rw [← h]
              exact hsub
            · rw [if_neg hshort] at hr
              exact hsub.trans (ih _ _ st2 _ r hr)

theorem pagedLoop_store_nodup {σ α κ : Type} (K : σ → List κ)
    (fetch : Nat → Except SyncErr (Option (List α)))
    (process : σ → List α → σ × Option SyncErr)
    (hnodup : ∀ s d, (K s).Nodup → (K (process s d).1).Nodup) :
    ∀ (fuel offset total : Nat) (st : σ) (reqs : List Nat) (r : RunResult σ),
    pagedLoop fetch process fuel offset total st reqs = some r →
    (K st).Nodup → (K r.store).Nodup := by
  intro fuel
  induction fuel with
  | zero => intro _ _ _ _ r hr; simp [pagedLoop] at hr
  | succ fuel ih =>
    intro offset total st reqs r hr hn
    rw [pagedLoop] at hr
    cases hF : fetch offset with
    | error e =>
      rw [hF] at hr
      dsimp only at hr
      injection hr with h
      rw [← h]
      exact hn
    | ok v =>
      rw [hF] at hr
      cases v with
      | none =>
        dsimp only at hr
        injection hr with h
        rw [← h]
        exact hn
      | some data =>
        dsimp only at hr
        by_cases hz : data.length = 0
        · rw [if_pos hz] at hr
          injection hr with h
          rw [← h]
          exact hn
        · rw [if_neg hz] at hr
          rcases hp : process st data with ⟨st2, e⟩
          have hn2 : (K st2).Nodup := by
            have := hnodup st data hn
            rwa [hp] at this
          cases e with
          | some err =>
            rw [hp] at hr
            dsimp only at hr
            injection hr with h
            rw [← h]
            exact hn2
          | none =>
            rw [hp] at hr
            dsimp only at hr
            by_cases hshort : data.length < PAGE_LIMIT
            · rw [if_pos hshort] at hr
              injection hr with h
              rw [← h]
              exact hn2
            · rw [if_neg hshort] at hr
              exact ih _ _ st2 _ r hr hn2

theorem pagedLoop_stable_keys {σ α κ : Type} (K : σ → List κ)
    (fetch : Nat → Except SyncErr (Option (List α)))
    (process : σ → List α → σ × Option SyncErr)
    (hok : ∀ s d, (process s d).2 = none)
    (hmono : ∀ s d, K s ⊆ K (process s d).1)
    (hstable : ∀ s t d, K (process s d).1 ⊆ K t → K (process t d).1 = K t) :
    ∀ (fuel offset total totalB : Nat) (st s : σ) (reqs reqsB : List Nat)
      (r : RunResult σ),
    pagedLoop fetch process fuel offset total st reqs = some r →
    K r.store ⊆ K s →
    ∃ rB, pagedLoop fetch process fuel offset totalB s reqsB = some rB ∧
      K rB.store = K s := by
  intro fuel
  induction fuel with
  | zero => intro _ _ _ _ _ _ _ r hr; simp [pagedLoop] at hr
  | succ fuel ih =>
    intro offset total totalB st s reqs reqsB r hr hsub
    cases hF : fetch offset with
    | error e =>
      refine ⟨⟨s, reqsB ++ [offset], totalB, some e⟩, ?_, rfl⟩
      rw [pagedLoop, hF]
    | ok v =>
      cases v with
      | none =>
        refine ⟨⟨s, reqsB ++ [offset], totalB, none⟩, ?_, rfl⟩
        rw [pagedLoop, hF]
      | some data =>
        rw [pagedLoop, hF] at hr
        dsimp only at hr
        by_cases hz : data.length = 0
        · refine ⟨⟨s, reqsB ++ [offset], totalB, none⟩, ?_, rfl⟩
          rw [pagedLoop, hF]
          dsimp only
          rw [if_pos hz]
        · rw [if_neg hz] at hr
          rcases hp : process st data with ⟨st2, e2⟩
          have he2 : e2 = none := by have := hok st data; rwa [hp] at this
          subst he2
          rcases hq : process s data with ⟨s2, e3⟩
          have he3 : e3 = none := by have := hok s data; rwa [hq] at this
          subst he3
          rw [hp] at hr
          dsimp only at hr
          by_cases hshort : data.length < PAGE_LIMIT
          · rw [if_pos hshort] at hr
            injection hr with h
            have hst2 : K st2 ⊆ K s := by
              have hrs : r.store = st2 := by rw [← h]
              rw [hrs] at hsub
              exact hsub
            have hKs2 : K s2 = K s := by
              have := hstable st s data (by rw [hp]; exact hst2)
              rwa [hq] at this
            refine ⟨⟨s2, reqsB ++ [offset], totalB + data.length, none⟩, ?_, hKs2⟩
            rw [pagedLoop, hF]
            dsimp only
            rw [if_neg hz, hq]
            dsimp only
            rw [if_pos hshort]
          · rw [if_neg hshort] at hr
            have hst2 : K st2 ⊆ K s :=
              (pagedLoop_store_mono K fetch process hmono fuel
                (offset + PAGE_LIMIT) (total + data.length) st2
                (reqs ++ [offset]) r hr).trans hsub
            have hKs2 : K s2 = K s := by
              have := hstable st s data (by rw [hp]; exact hst2)
              rwa [hq] at this
            obtain ⟨rB, hrB, hKrB⟩ := ih (offset + PAGE_LIMIT)
              (total + data.length) (totalB + data.length) st2 s2
              (reqs ++ [offset]) (reqsB ++ [offset]) r hr
              (by rw [hKs2]; exact hsub)
            refine ⟨rB, ?_, by rw [hKrB, hKs2]⟩
            rw [pagedLoop, hF]
            dsimp only
            rw [if_neg hz, hq]
            dsimp only
            rw [if_neg hshort]
            exact hrB

/-- C7: Running a synchronizer twice against identical remote data (all
upserts keyed by the remote id, no failures) produces no duplicate rows and
leaves the row count unchanged after the second run: the key set after the
second run equals the key set after the first, the row count is unchanged,
and keys remain pairwise distinct (given the store's unique-key
invariant held initially). Proved for the Restaurant, Dish and Order
synchronizers (the latter over both its tables). -/
theorem claim_C7_idempotence :
    (∀ (data : List ZRestaurant) (st0 : ListStore RestaurantRow),
      (keys st0).Nodup →
      keys (syncRestaurantsRun (.ok data) (fun _ => false)
          (syncRestaurantsRun (.ok data) (fun _ => false) st0).1).1 =
        keys (syncRestaurantsRun (.ok data) (fun _ => false) st0).1 ∧
      rowCount (syncRestaurantsRun (.ok data) (fun _ => false)
          (syncRestaurantsRun (.ok data) (fun _ => false) st0).1).1 =
        rowCount (syncRestaurantsRun (.ok data) (fun _ => false) st0).1 ∧
      (keys (syncRestaurantsRun (.ok data) (fun _ => false) st0).1).Nodup) ∧
    (∀ (api : Nat → Option (List ZDish)) (fuel : Nat)
      (st0 : ListStore DishRow) (r1 : RunResult (ListStore DishRow)),
      (keys st0).Nodup →
      syncDishesRun (fun _ => false) api (fun _ => false) fuel st0 = some r1 →
      ∃ r2, syncDishesRun (fun _ => false) api (fun _ => false) fuel r1.store =
          some r2 ∧
        keys r2.store = keys r1.store ∧
        rowCount r2.store = rowCount r1.store ∧
        (keys r1.store).Nodup) ∧
    (∀ (api : String → String → Nat → Option (List ZOrder))
      (fromDate toDate : Option CalDate) (now : CalDate) (fuel : Nat)
      (st0 : OrdersStore) (r1 : RunResult OrdersStore),
      (keys st0.orders).Nodup → (keys st0.items).Nodup →
      syncOrdersRun (fun _ => false) api (fun _ => false) (fun _ => false)
        fromDate toDate now fuel st0 = some r1 →
      ∃ r2, syncOrdersRun (fun _ => false) api (fun _ => false) (fun _ => false)
          fromDate toDate now fuel r1.store = some r2 ∧
        ordersKeys r2.store = ordersKeys r1.store ∧
        ordersRowCount r2.store = ordersRowCount r1.store ∧
        (ordersKeys r1.store).Nodup) := by
  refine ⟨?_, ?_, ?_⟩
  · intro data st0 hn
    have hkeys1 := restaurantRecordLoop_ok_keys (fun _ => false) st0 data
      (fun _ _ => rfl)
    have hstable := restaurantRecordLoop_stable
      (restaurantRecordLoop (fun _ => false) st0 data).1 data hkeys1.2.2
    have hnod := restaurantRecordLoop_nodup st0 data hn
    exact ⟨hstable, by
      rw [rowCount_eq_keys_length, rowCount_eq_keys_length]
      exact congrArg List.length hstable, hnod⟩
  · intro api fuel st0 r1 hn h1
    have hmono : ∀ s d, keys s ⊆ keys (dishPageLoop (fun _ => false) s d).1 :=
      fun s d => (dishPageLoop_keys s d).1
    have hnodup : ∀ s d, (keys s).Nodup →
        (keys (dishPageLoop (fun _ => false) s d).1).Nodup :=
      fun s d => (dishPageLoop_keys s d).2.2
    have hstab : ∀ s t d, keys (dishPageLoop (fun _ => false) s d).1 ⊆ keys t →
        keys (dishPageLoop (fun _ => false) t d).1 = keys t := by
      intro s t d hsub
      exact dishPageLoop_stable t d
        (fun x hx => hsub ((dishPageLoop_keys s d).2.1 x hx))
    have h1b : pagedLoop (fetchEnv (fun _ => false) api)
        (dishPageLoop (fun _ => false)) fuel 0 0 st0 [] = some r1 := by
      simpa [syncDishesRun] using h1
    obtain ⟨r2, hr2, hkeys⟩ := pagedLoop_stable_keys ListStore.keys
      (fetchEnv (fun _ => false) api) (dishPageLoop (fun _ => false))
      (fun s d => dishPageLoop_no_fail_ok s d) hmono hstab fuel 0 0 0 st0
      r1.store [] [] r1 h1b (List.Subset.refl _)
    have hnod1 : (keys r1.store).Nodup := pagedLoop_store_nodup ListStore.keys
      (fetchEnv (fun _ => false) api) (dishPageLoop (fun _ => false)) hnodup
      fuel 0 0 st0 [] r1 h1b hn
    refine ⟨r2, by simpa [syncDishesRun] using hr2, hkeys, ?_, hnod1⟩
    rw [rowCount_eq_keys_length, rowCount_eq_keys_length]
    exact congrArg List.length hkeys
  · intro api fromDate toDate now fuel st0 r1 hno hni h1
    have hmono : ∀ s d, ordersKeys s ⊆
        ordersKeys (orderPageLoop (fun _ => false) (fun _ => false) s d).1 := by
      intro s d
      have h := orderPageLoop_ok_keys (fun _ => false) (fun _ => false) s d
        (fun _ _ => rfl)
      exact ordersKeys_subset_of h.2.1 h.2.2.1
    have hnodup : ∀ s d, (ordersKeys s).Nodup →
        (ordersKeys (orderPageLoop (fun _ => false) (fun _ => false) s d).1).Nodup := by
      intro s d hn
      have hc := ordersKeys_nodup_components hn
      have h2 := orderPageLoop_nodup (fun _ => false) s d hc.1 hc.2
      exact ordersKeys_nodup_of h2.1 h2.2
    have hstab : ∀ s t d,
        ordersKeys (orderPageLoop (fun _ => false) (fun _ => false) s d).1 ⊆
          ordersKeys t →
        ordersKeys (orderPageLoop (fun _ => false) (fun _ => false) t d).1 =
          ordersKeys t := by
      intro s t d hsub
      have hc := ordersKeys_subset_components hsub
      have hadds := orderPageLoop_ok_keys (fun _ => false) (fun _ => false) s d
        (fun _ _ => rfl)
      have hres := orderPageLoop_stable (fun _ => false) t d
        (fun o ho => hc.1 (hadds.2.2.2.1 o ho))
        (fun o ho its hits it hit =>
          hc.2 (hadds.2.2.2.2 o ho its hits it hit rfl))
      exact ordersKeys_eq_of hres.1 hres.2
    have h1b : pagedLoop
        (fetchEnv (fun _ => false)
          (api (dateUtils.formatYyyyMmDd (syncOrdersDates fromDate toDate now).1)
            (dateUtils.formatYyyyMmDd (syncOrdersDates fromDate toDate now).2)))
        (orderPageLoop (fun _ => false) (fun _ => false)) fuel 0 0 st0 [] =
        some r1 := by
      simpa [syncOrdersRun] using h1
    obtain ⟨r2, hr2, hkeys⟩ := pagedLoop_stable_keys ordersKeys _ _
      (fun s d => orderPageLoop_no_fail_ok (fun _ => false) s d) hmono hstab
      fuel 0 0 0 st0 r1.store [] [] r1 h1b (List.Subset.refl _)
    have hnod1 : (ordersKeys r1.store).Nodup := pagedLoop_store_nodup ordersKeys
      _ _ hnodup fuel 0 0 st0 [] r1 h1b (ordersKeys_nodup_of hno hni)
    refine ⟨r2, by simpa [syncOrdersRun] using hr2, hkeys, ?_, hnod1⟩
    rw [ordersRowCount_eq_length, ordersRowCount_eq_length]
    exact congrArg List.length hkeys

/-- Single short dish page for the C7 witness. -/
def dishApiW1 : Nat → Option (List ZDish) :=
  fun offset => if offset = 0 then some [sampleDish 1] else some []

/-- Single short order page for the C7 witness. -/
def orderPagesW1 : Nat → Option (List ZOrder) :=
  fun offset => if offset = 0 then some [oW2] else some []

/-- C7 witness: each synchronizer run twice from the empty store on a
concrete one-record remote dataset. -/
theorem claim_C7_idempotence_witness :
    ((keys ([] : ListStore RestaurantRow)).Nodup ∧
      keys (syncRestaurantsRun (.ok [sampleRestaurantC5]) (fun _ => false)
          (syncRestaurantsRun (.ok [sampleRestaurantC5]) (fun _ => false) []).1).1 =
        keys (syncRestaurantsRun (.ok [sampleRestaurantC5]) (fun _ => false) []).1 ∧
      rowCount (syncRestaurantsRun (.ok [sampleRestaurantC5]) (fun _ => false)
          (syncRestaurantsRun (.ok [sampleRestaurantC5]) (fun _ => false) []).1).1 =
        rowCount (syncRestaurantsRun (.ok [sampleRestaurantC5]) (fun _ => false) []).1 ∧
      (keys (syncRestaurantsRun (.ok [sampleRestaurantC5]) (fun _ => false) []).1).Nodup) ∧
    ((keys ([] : ListStore DishRow)).Nodup ∧
      syncDishesRun (fun _ => false) dishApiW1 (fun _ => false) 1 [] =
        some ⟨[(1, dishRow (sampleDish 1))], [0], 1, none⟩ ∧
      ∃ r2, syncDishesRun (fun _ => false) dishApiW1 (fun _ => false) 1
          [(1, dishRow (sampleDish 1))] = some r2 ∧
        keys r2.store = keys [(1, dishRow (sampleDish 1))] ∧
        rowCount r2.store = rowCount [(1, dishRow (sampleDish 1))] ∧
        (keys ([(1, dishRow (sampleDish 1))] : ListStore DishRow)).Nodup) ∧
    ((keys (⟨[], []⟩ : OrdersStore).orders).Nodup ∧
      (keys (⟨[], []⟩ : OrdersStore).items).Nodup ∧
      syncOrdersRun (fun _ => false) (fun _ _ => orderPagesW1) (fun _ => false)
          (fun _ => false) none none ⟨2025, 3, 15⟩ 1 ⟨[], []⟩ =
        some ⟨⟨[(2, orderRow oW2)], [(20, itemRow 2 (sampleItem 20))]⟩, [0], 1,
          none⟩ ∧
      ∃ r2, syncOrdersRun (fun _ => false) (fun _ _ => orderPagesW1)
          (fun _ => false) (fun _ => false) none none ⟨2025, 3, 15⟩ 1
          ⟨[(2, orderRow oW2)], [(20, itemRow 2 (sampleItem 20))]⟩ = some r2 ∧
        ordersKeys r2.store =
          ordersKeys ⟨[(2, orderRow oW2)], [(20, itemRow 2 (sampleItem 20))]⟩ ∧
        ordersRowCount r2.store =
          ordersRowCount ⟨[(2, orderRow oW2)], [(20, itemRow 2 (sampleItem 20))]⟩ ∧
        (ordersKeys
          (⟨[(2, orderRow oW2)],
            [(20, itemRow 2 (sampleItem 20))]⟩ : OrdersStore)).Nodup) := by
  refine ⟨⟨by decide, ?_⟩, ⟨by decide, rfl, ?_⟩, ⟨by decide, by decide, rfl, ?_⟩⟩
  · exact claim_C7_idempotence.1 [sampleRestaurantC5] [] (by decide)
  · have h := claim_C7_idempotence.2.1 dishApiW1 1 []
      ⟨[(1, dishRow (sampleDish 1))], [0], 1, none⟩ (by decide) rfl
    exact h
  · have h := claim_C7_idempotence.2.2 (fun _ _ => orderPagesW1) none none
      ⟨2025, 3, 15⟩ 1 ⟨[], []⟩
      ⟨⟨[(2, orderRow oW2)], [(20, itemRow 2 (sampleItem 20))]⟩, [0], 1, none⟩
      (by decide) (by decide) rfl
    exact h
